import Mathlib

/-!
# Verification of the ct_icp SLAM driver (`src/slam.cpp`)

Shallow embedding of the sequence-orchestration and evaluation loop of
`slam.cpp` (`main`, `read_config` data model, `ControlSlamWindow`).

Modelling conventions:
* C++ `double` quantities (elapsed milliseconds, attempt totals, RPE/APE
  errors) are modelled as `ℚ`; IEEE division by an integer count that may be
  zero is modelled by `fpDiv : ℚ → ℕ → Option ℚ`, where `none` stands for the
  non-finite result (NaN/Inf) that the double division produces when the
  count is zero.  No rounding is modelled; the claims under study are
  structural, not about floating-point rounding.
* Poses (`Eigen::Matrix4d`) are opaque: `Pose := ℕ`.  The external
  `transform_trajectory_frame` is length- and order-preserving and is
  modelled as the identity on the abstract poses.
* The external registration engine (`ct_icp::Odometry`) is modelled by the
  per-frame outcomes it would return (`FrameOutcome`), and its `Trajectory()`
  accumulates one pose per successfully registered frame, per the engine
  contract.
* The external evaluator `ct_icp::eval` is an opaque parameter
  `evalFn : List Pose → List Pose → seq_errors`; the driver overwrites the
  `average_elapsed_ms` / `mean_num_attempts` fields afterwards, exactly as
  `main` does.
* Observable actions of `main` (RegisterFrame calls, gate polls, 10 ms
  sleeps, error reports, `gui_thread->join()`, `exit(1)`, pose saving,
  `SaveMetrics` calls) are recorded as an ordered `List Event` trace.
* `std::map<std::string, seq_errors>` is modelled as a key-sorted
  association list with overwriting insert (`mapInsert`).
-/

namespace CtIcpSlam

/-- Abstract 4×4 rigid transform (`Eigen::Matrix4d`). -/
abbrev Pose := ℕ

/-- One per-segment error entry (`seq_errors::tab_errors` element):
translation error and rotation error (radians). -/
structure SegErr where
  t_err : ℚ
  r_err : ℚ
deriving DecidableEq, Repr

/-- `ct_icp::seq_errors`: the per-sequence evaluation record. -/
structure seq_errors where
  mean_rpe : ℚ := 0
  mean_ape : ℚ := 0
  max_ape : ℚ := 0
  mean_local_err : ℚ := 0
  max_local_err : ℚ := 0
  index_max_local_err : ℕ := 0
  average_elapsed_ms : Option ℚ := some 0
  mean_num_attempts : Option ℚ := some 0
  tab_errors : List SegErr := []
deriving DecidableEq, Repr

/-- The run parameters of `ct_icp::SLAMOptions` that the orchestration loop
consults (dataset/odometry sub-options are external).  Defaults are the
defaults of the C++ struct. -/
structure SLAMOptions where
  max_num_threads : ℤ := 1
  suspend_on_failure : Bool := false
  save_trajectory : Bool := true
  all_sequences : Bool := true
  start_index : ℤ := 0
  max_frames : ℤ := -1
  with_viz3d : Bool := true
deriving DecidableEq, Repr

/-- What one iteration of the frame loop observes from the outside world:
the engine summary for the acquired frame (`success`, `error_message`,
`number_of_attempts`, the absolute pose its trajectory frame contributes),
the measured registration time of this frame in milliseconds, and the number
of `false` readings the pause gate returns before the first `true` reading
during this frame's polling wait. -/
structure FrameOutcome where
  success : Bool
  error_message : String
  number_of_attempts : ℕ
  elapsed_ms : ℚ
  pose : Pose
  pauses : ℕ
deriving DecidableEq, Repr

/-- One dataset sequence together with the engine/ground-truth data the
driver consumes for it. -/
structure SequenceInput where
  sequence_id : ℤ
  name : String
  frames : List FrameOutcome
  has_ground_truth : Bool
  ground_truth_poses : List Pose
deriving DecidableEq, Repr

/-- Observable actions of `main`, in program order. -/
inductive Event where
  | register (frame_idx : ℕ)
  | pollGate (value : Bool)
  | sleep (seconds : ℚ)
  | reportError (seq_id : ℤ) (frame_idx : ℕ) (msg : String)
  | joinGui
  | exitProcess (code : ℕ)
  | savePoses (name : String) (poses : List Pose)
  | evalCall (gt_arg : List Pose) (est_arg : List Pose)
  | saveMetrics (snapshot : List (String × seq_errors)) (valid : Bool)
deriving DecidableEq, Repr

/-- `std::this_thread::sleep_for(std::chrono::duration<double>(0.01))`:
the gate-poll interval in seconds. -/
def pollIntervalSeconds : ℚ := 1 / 100

/-- The busy wait `while (!window->ContinueSLAM()) sleep_for(0.01)`,
given that the gate reads `false` exactly `pauses` times before reading
`true`. -/
def gateWait : ℕ → List Event
  | 0 => [Event.pollGate true]
  | n + 1 => Event.pollGate false :: Event.sleep pollIntervalSeconds :: gateWait n

/-- IEEE double division of an accumulated total by an integer count:
`none` models the non-finite value (NaN or ±Inf) obtained when the count is
zero; otherwise the exact quotient. -/
def fpDiv (a : ℚ) (b : ℕ) : Option ℚ :=
  if b = 0 then none else some (a / b)

/-- Mutable state of the per-sequence frame loop of `main`
(lines 245–325): `frame_id`, the running attempt total
(`avg_number_of_attempts` before its final division), the per-sequence
registration time, the engine's accumulated trajectory, and the event
trace so far. -/
structure LoopState where
  frame_id : ℕ := 0
  attempts_total : ℚ := 0
  registration_elapsed_ms : ℚ := 0
  trajectory : List Pose := []
  events : List Event := []
deriving DecidableEq, Repr

/-- How the frame loop of one sequence ended. -/
inductive LoopExit where
  /-- iterator exhausted or frame cap reached -/
  | completed
  /-- registration failure with `suspend_on_failure == false`: `break` -/
  | failedBreak (frame_idx : ℕ)
  /-- registration failure with `suspend_on_failure == true`: `exit(1)` -/
  | aborted (frame_idx : ℕ)
deriving DecidableEq, Repr

/-- The loop guard of line 255:
`iterator_ptr->HasNext() && (options.max_frames < 0 || frame_id < options.max_frames)`. -/
def loopCond (max_frames : ℤ) (hasNext : Bool) (frame_id : ℕ) : Bool :=
  hasNext && (decide (max_frames < 0) || decide ((frame_id : ℤ) < max_frames))

/-- The frame loop of `main` (lines 255–325).  The list argument is what the
dataset iterator still holds (`HasNext()` = the list is nonempty,
`NextUnfilteredFrame()` = its head, with the engine's response attached).
Per iteration (in program order): accumulate `number_of_attempts` and the
registration time (also into the global totals — done by the caller, which
adds the per-sequence totals frame-synchronously), publish visualization and
busy-poll the pause gate when `with_viz3d`, then test `summary.success`:
on failure report sequence id / frame index / error message and either join
the GUI thread and `exit(1)` (suspend_on_failure) or `break`; on success
increment `frame_id` and continue. -/
def runLoop (opts : SLAMOptions) (seq_id : ℤ) :
    List FrameOutcome → LoopState → LoopState × LoopExit
  | [], st => (st, LoopExit.completed)
  | f :: rest, st =>
    if opts.max_frames < 0 ∨ (st.frame_id : ℤ) < opts.max_frames then
      let st1 : LoopState :=
        { st with
          attempts_total := st.attempts_total + f.number_of_attempts,
          registration_elapsed_ms := st.registration_elapsed_ms + f.elapsed_ms,
          events := st.events ++ [Event.register st.frame_id] ++
            (if opts.with_viz3d then gateWait f.pauses else []) }
      if f.success then
        runLoop opts seq_id rest
          { st1 with
            frame_id := st1.frame_id + 1,
            trajectory := st1.trajectory ++ [f.pose] }
      else
        let st2 : LoopState :=
          { st1 with
            events := st1.events ++
              [Event.reportError seq_id st1.frame_id f.error_message] }
        if opts.suspend_on_failure then
          ({ st2 with
             events := st2.events ++
               (if opts.with_viz3d then [Event.joinGui] else []) ++
               [Event.exitProcess 1] },
           LoopExit.aborted st1.frame_id)
        else
          (st2, LoopExit.failedBreak st1.frame_id)
    else
      (st, LoopExit.completed)

/-- The frame loop of a sequence, started from the pristine loop state
(`frame_id = 0`, zero totals, empty trajectory and trace), as `main` does at
the top of each sequence iteration. -/
def seqFinal (opts : SLAMOptions) (s : SequenceInput) : LoopState × LoopExit :=
  runLoop opts s.sequence_id s.frames {}

/-- Line 327: `avg_number_of_attempts /= frame_id` — the unconditional
double division performed right after the loop ends. -/
def avgNumberOfAttempts (opts : SLAMOptions) (s : SequenceInput) : Option ℚ :=
  fpDiv (seqFinal opts s).1.attempts_total (seqFinal opts s).1.frame_id

/-- Line 368: `registration_elapsed_ms / frame_id` — the per-sequence average
registration time, again an unconditional double division after the loop. -/
def averageElapsedMs (opts : SLAMOptions) (s : SequenceInput) : Option ℚ :=
  fpDiv (seqFinal opts s).1.registration_elapsed_ms (seqFinal opts s).1.frame_id

/-- `std::vector<Eigen::Matrix4d>::resize(n)`: truncates when `n` is smaller,
pads with default-constructed poses when `n` is larger. -/
def resizePoses (v : List Pose) (n : ℕ) : List Pose :=
  if n ≤ v.length then v.take n else v ++ List.replicate (n - v.length) 0

/-- Lines 363–365: compute `valid_trajectory` and, when it is false, resize
the ground-truth poses to the estimated length; returns the pose list that is
then handed to `ct_icp::eval` together with the flag. -/
def groundTruthForEval (gt est : List Pose) : List Pose × Bool :=
  let valid : Bool := decide (gt.length = est.length)
  (if valid then gt else resizePoses gt est.length, valid)

/-- Whether the frame loop ended in the `exit(1)` branch. -/
def LoopExit.isAborted : LoopExit → Bool
  | LoopExit.aborted _ => true
  | _ => false

/-- Lexicographic strict order on character lists — the comparison
`std::less<std::string>` applies to the keys of
`std::map<std::string, ct_icp::seq_errors>`. -/
def strLt : List Char → List Char → Bool
  | [], [] => false
  | [], _ :: _ => true
  | _ :: _, [] => false
  | a :: as, b :: bs =>
    if a.toNat < b.toNat then true
    else if b.toNat < a.toNat then false
    else strLt as bs

/-- `std::string` comparison: lexicographic on the characters. -/
def stringLt (a b : String) : Bool :=
  strLt a.data b.data

/-- Overwriting insert into the key-sorted association list that models
`std::map<std::string, ct_icp::seq_errors>`: `m[k] = v`.  Entries are kept
in strictly increasing key order; an equal key is overwritten in place. -/
def mapInsert (k : String) (v : seq_errors) :
    List (String × seq_errors) → List (String × seq_errors)
  | [] => [(k, v)]
  | (k1, v1) :: rest =>
    if stringLt k k1 then (k, v) :: (k1, v1) :: rest
    else if k = k1 then (k, v) :: rest
    else (k1, v1) :: mapInsert k v rest

/-- State of `main` that lives across sequences (lines 233–238), plus the
global event trace. -/
structure GlobalState where
  sequence_name_to_errors : List (String × seq_errors) := []
  dataset_with_gt : Bool := false
  all_seq_registration_elapsed_ms : ℚ := 0
  all_seq_num_frames : ℕ := 0
  average_rpe_on_seq : ℚ := 0
  nb_seq_with_gt : ℕ := 0
  events : List Event := []
deriving DecidableEq, Repr

/-- The estimated absolute poses of a sequence:
`transform_trajectory_frame(options.dataset_options, trajectory, sequence_id)`
applied to the engine's trajectory; the external transform maps each frame's
pose and is modelled as the identity on the abstract poses. -/
def estimatedPoses (opts : SLAMOptions) (s : SequenceInput) : List Pose :=
  (seqFinal opts s).1.trajectory

/-- The `seq_errors` record that `main` stores for a ground-truth sequence
(lines 367–369): the evaluator's output with `average_elapsed_ms` and
`mean_num_attempts` overwritten by the driver's own figures. -/
def seqErrorOf (opts : SLAMOptions)
    (evalFn : List Pose → List Pose → seq_errors) (s : SequenceInput) :
    seq_errors :=
  { evalFn (groundTruthForEval s.ground_truth_poses (estimatedPoses opts s)).1
      (estimatedPoses opts s) with
    average_elapsed_ms := averageElapsedMs opts s,
    mean_num_attempts := avgNumberOfAttempts opts s }

/-- One iteration of the outer sequence loop of `main` (lines 240–395):
run the frame loop, fold the per-sequence totals into the global ones
(the C++ code accumulates them per frame; the amounts are identical), and —
unless the loop called `exit(1)` — divide the attempt total, save the
trajectory when `save_trajectory`, and when the sequence has ground truth
evaluate it (resizing the ground truth on length mismatch), record the
entry in the name→errors map and rewrite the metrics file with the whole
map.  Returns the updated global state and whether the process exited. -/
def runSequence (opts : SLAMOptions)
    (evalFn : List Pose → List Pose → seq_errors)
    (g : GlobalState) (s : SequenceInput) : GlobalState × Bool :=
  let st := (seqFinal opts s).1
  let g1 : GlobalState :=
    { g with
      all_seq_registration_elapsed_ms :=
        g.all_seq_registration_elapsed_ms + st.registration_elapsed_ms,
      all_seq_num_frames := g.all_seq_num_frames + st.frame_id,
      events := g.events ++ st.events }
  if (seqFinal opts s).2.isAborted then (g1, true)
  else
    let g2 : GlobalState :=
      if opts.save_trajectory then
        { g1 with events := g1.events ++ [Event.savePoses s.name st.trajectory] }
      else g1
    if s.has_ground_truth then
      let gt_for_eval :=
        (groundTruthForEval s.ground_truth_poses (estimatedPoses opts s)).1
      let valid_trajectory :=
        (groundTruthForEval s.ground_truth_poses (estimatedPoses opts s)).2
      let seq_error := seqErrorOf opts evalFn s
      let newMap := mapInsert s.name seq_error g2.sequence_name_to_errors
      ({ g2 with
         dataset_with_gt := true,
         nb_seq_with_gt := g2.nb_seq_with_gt + 1,
         average_rpe_on_seq := g2.average_rpe_on_seq + seq_error.mean_rpe,
         sequence_name_to_errors := newMap,
         events := g2.events ++
           [Event.evalCall gt_for_eval (estimatedPoses opts s),
            Event.saveMetrics newMap valid_trajectory] },
       false)
    else (g2, false)

/-- Result of the whole driver: either `main` ran all sequences and returned
(exit code 0), or `exit(1)` was reached inside a sequence. -/
inductive RunResult where
  | finished (g : GlobalState)
  | exited (code : ℕ) (g : GlobalState)
deriving DecidableEq, Repr

/-- The outer sequence loop of `main`: runs the sequences in order, stopping
the whole process as soon as one of them calls `exit(1)`. -/
def runAll (opts : SLAMOptions) (evalFn : List Pose → List Pose → seq_errors) :
    List SequenceInput → GlobalState → RunResult
  | [], g => RunResult.finished g
  | s :: rest, g =>
    if (runSequence opts evalFn g s).2 then
      RunResult.exited 1 (runSequence opts evalFn g s).1
    else runAll opts evalFn rest (runSequence opts evalFn g s).1

/-- The driver started from the pristine global state. -/
def runSLAM (opts : SLAMOptions)
    (evalFn : List Pose → List Pose → seq_errors)
    (seqs : List SequenceInput) : RunResult :=
  runAll opts evalFn seqs {}

/-- The `double` constant `M_PI` — the IEEE-754 double nearest to π, which is
what line 410 multiplies by (exactly `884279719003555 / 2^48`). -/
def M_PI : ℚ := 884279719003555 / 281474976710656

/-- Lines 399–408: the accumulation loop of the final summary — fold over the
name→errors map, and inside it over each entry's `tab_errors`, summing
`t_err`, `r_err` and counting segments
(`all_seq_rpe_t`, `all_seq_rpe_r`, `num_total_errors`). -/
def kittiAccum (m : List (String × seq_errors)) : ℚ × ℚ × ℚ :=
  m.foldl
    (fun acc p =>
      p.2.tab_errors.foldl
        (fun a e => (a.1 + e.t_err, a.2.1 + e.r_err, a.2.2 + 1)) acc)
    (0, 0, 0)

/-- Line 409: `(all_seq_rpe_t / num_total_errors) * 100`. -/
def kittiTranslationMetric (m : List (String × seq_errors)) : ℚ :=
  ((kittiAccum m).1 / (kittiAccum m).2.2) * 100

/-- Line 410: `(all_seq_rpe_r / num_total_errors) * 180.0 / M_PI`. -/
def kittiRotationMetric (m : List (String × seq_errors)) : ℚ :=
  ((kittiAccum m).2.1 / (kittiAccum m).2.2) * 180 / M_PI

/-- Line 411: `average_rpe_on_seq / nb_seq_with_gt`, printed only when
`dataset_with_gt`. -/
def averageRpeOnSeqPrinted (g : GlobalState) : ℚ :=
  g.average_rpe_on_seq / g.nb_seq_with_gt

/-- The global state a run ends with (on `exit(1)` the state at the exit). -/
def finalGlobal : RunResult → GlobalState
  | RunResult.finished g => g
  | RunResult.exited _ g => g

/-! Claim-side observables and spec-worded formulas. -/

/-- Is this event a call to `RegisterFrame`? -/
def Event.isRegister : Event → Bool
  | Event.register _ => true
  | _ => false

/-- Number of `RegisterFrame` calls recorded in a trace. -/
def registerCount (evs : List Event) : ℕ :=
  (evs.filter Event.isRegister).length

/-- Is this event a gate poll or a poll-interval sleep? -/
def Event.isGate : Event → Bool
  | Event.pollGate _ => true
  | Event.sleep _ => true
  | _ => false

/-- The loop guard exactly as the claim words it: continue while the
iterator has a frame AND (`max_frames` is the unbounded sentinel `-1` OR
frames processed so far `<` `max_frames`). -/
def loopCondClaim (max_frames : ℤ) (hasNext : Bool) (frame_id : ℕ) : Bool :=
  hasNext && (decide (max_frames = -1) || decide ((frame_id : ℤ) < max_frames))

/-- Pause-gate state threaded through a trace: `true` iff the last gate poll
read `false` (a pause has been observed and not yet lifted). -/
def pauseStateAfter : List Event → Bool → Bool
  | [], b => b
  | Event.pollGate v :: rest, _ => pauseStateAfter rest (!v)
  | _ :: rest, b => pauseStateAfter rest b

/-- `true` iff somewhere in the trace a `RegisterFrame` call happens while a
pause is observed and the gate has not yet read `true` again. -/
def regMidPauseAux : List Event → Bool → Bool
  | [], _ => false
  | Event.pollGate v :: rest, _ => regMidPauseAux rest (!v)
  | Event.register _ :: rest, b => b || regMidPauseAux rest b
  | _ :: rest, b => regMidPauseAux rest b

/-- A registration call begins mid-pause somewhere in the trace. -/
def regMidPause (evs : List Event) : Bool :=
  regMidPauseAux evs false

/-- The successive snapshots written to the metrics sidecar file
(`metrics.yaml`), in write order. -/
def metricsSnapshots (evs : List Event) :
    List (List (String × seq_errors)) :=
  evs.filterMap fun e =>
    match e with
    | Event.saveMetrics snap _ => some snap
    | _ => none

/-- Association-list lookup in the name→errors map. -/
def lookupMap (k : String) : List (String × seq_errors) → Option seq_errors
  | [] => none
  | (k1, v1) :: rest => if k = k1 then some v1 else lookupMap k rest

/-- All per-segment errors of a map, sequence by sequence — the flat list
the claim's "sum of all per-segment errors across all sequences" ranges
over. -/
def allSegments (m : List (String × seq_errors)) : List SegErr :=
  m.flatMap fun p => p.2.tab_errors

/-- The mean RPE of each ground-truth sequence, in processing order — the
list whose unweighted arithmetic mean the claim says the final
"Average RPE on seq" equals. -/
def gtMeanRpes (opts : SLAMOptions)
    (evalFn : List Pose → List Pose → seq_errors)
    (seqs : List SequenceInput) : List ℚ :=
  (seqs.filter fun s => s.has_ground_truth).map
    fun s => (seqErrorOf opts evalFn s).mean_rpe

/-- The map states after each ground-truth sequence, in processing order —
what the claim says the successive metrics-file snapshots must be. -/
def mapStates (opts : SLAMOptions)
    (evalFn : List Pose → List Pose → seq_errors) :
    List SequenceInput → List (String × seq_errors) →
    List (List (String × seq_errors))
  | [], _ => []
  | s :: rest, m =>
    if s.has_ground_truth then
      let m1 := mapInsert s.name (seqErrorOf opts evalFn s) m
      m1 :: mapStates opts evalFn rest m1
    else mapStates opts evalFn rest m

/-- The name→errors map after processing a list of sequences, starting
from `m` — the accumulated mapping the claims describe. -/
def finalMapOf (opts : SLAMOptions)
    (evalFn : List Pose → List Pose → seq_errors) :
    List SequenceInput → List (String × seq_errors) →
    List (String × seq_errors)
  | [], m => m
  | s :: rest, m =>
    finalMapOf opts evalFn rest
      (if s.has_ground_truth then
        mapInsert s.name (seqErrorOf opts evalFn s) m
       else m)

/-- Total `number_of_attempts` over a frame list (as accumulated into the
double `avg_number_of_attempts`). -/
def sumAttempts (frames : List FrameOutcome) : ℚ :=
  (frames.map fun f => (f.number_of_attempts : ℚ)).sum

/-- Total per-frame registration time over a frame list. -/
def sumElapsed (frames : List FrameOutcome) : ℚ :=
  (frames.map fun f => f.elapsed_ms).sum

/-- The events one successfully registered frame contributes, then the rest:
the `RegisterFrame` call, and the gate polling wait when visualization is
on. -/
def successTrace (opts : SLAMOptions) : ℕ → List FrameOutcome → List Event
  | _, [] => []
  | fid, f :: rest =>
    (Event.register fid ::
      (if opts.with_viz3d then gateWait f.pauses else [])) ++
      successTrace opts (fid + 1) rest

/-- Everything the registration engine reports about a frame except the
gate-poll count (which belongs to the control surface, not the engine). -/
def FrameOutcome.core (f : FrameOutcome) : Bool × String × ℕ × ℚ × Pose :=
  (f.success, f.error_message, f.number_of_attempts, f.elapsed_ms, f.pose)

/-- The loop state without its event trace: the components that determine
which frames get registered and the reported statistics. -/
def LoopState.core (st : LoopState) : ℕ × ℚ × ℚ × List Pose :=
  (st.frame_id, st.attempts_total, st.registration_elapsed_ms, st.trajectory)

/-! ## Concrete fixtures used by witnesses and counterexamples -/

/-- A frame the engine registers successfully. -/
def okFrame : FrameOutcome :=
  { success := true, error_message := "", number_of_attempts := 1,
    elapsed_ms := 2, pose := 5, pauses := 0 }

/-- A frame whose registration fails. -/
def failFrame : FrameOutcome :=
  { success := false, error_message := "ICP failure",
    number_of_attempts := 5, elapsed_ms := 3, pose := 6, pauses := 0 }

/-- A one-frame sequence without ground truth. -/
def seqOneOk : SequenceInput :=
  { sequence_id := 0, name := "00", frames := [okFrame],
    has_ground_truth := false, ground_truth_poses := [] }

/-- A one-frame sequence whose ground truth has three poses — an
estimated/ground-truth length mismatch. -/
def seqMismatch : SequenceInput :=
  { sequence_id := 2, name := "02", frames := [okFrame],
    has_ground_truth := true, ground_truth_poses := [1, 2, 3] }

/-- A sequence whose second frame fails. -/
def seqPreFail : SequenceInput :=
  { sequence_id := 0, name := "00", frames := [okFrame, failFrame],
    has_ground_truth := false, ground_truth_poses := [] }

/-- A constant external evaluator used by witnesses. -/
def evalConst : List Pose → List Pose → seq_errors :=
  fun _ _ => { mean_rpe := 1 / 50 }

/-- A zero-frame sequence that has (empty) ground truth. -/
def seqEmptyGt : SequenceInput :=
  { sequence_id := 1, name := "01", frames := [],
    has_ground_truth := true, ground_truth_poses := [] }

/-- An external evaluator producing one error segment, used by witnesses. -/
def evalSeg : List Pose → List Pose → seq_errors :=
  fun _ _ => { mean_rpe := 1 / 50,
               tab_errors := [{ t_err := 1 / 10, r_err := 1 / 5 }] }

/-- A ground-truth sequence whose name sorts after `seqEmptyGt`'s. -/
def seqNameB : SequenceInput :=
  { sequence_id := 3, name := "10", frames := [],
    has_ground_truth := true, ground_truth_poses := [] }

/-- A sequence whose single frame sees the pause gate read `false` twice
before it reads `true`. -/
def seqPause : SequenceInput :=
  { sequence_id := 4, name := "04",
    frames := [{ okFrame with pauses := 2 }],
    has_ground_truth := false, ground_truth_poses := [] }

/-! ## Helper lemmas about the frame loop -/

theorem registerCount_append (a b : List Event) :
    registerCount (a ++ b) = registerCount a + registerCount b := by
  simp [registerCount, List.filter_append]

theorem registerCount_gateWait (n : ℕ) : registerCount (gateWait n) = 0 := by
  induction n with
  | zero => rfl
  | succ n ih => simpa [gateWait, registerCount, Event.isRegister] using ih

theorem registerCount_if_gateWait (b : Bool) (n : ℕ) :
    registerCount (if b then gateWait n else []) = 0 := by
  cases b
  · simp [registerCount]
  · simpa using registerCount_gateWait n

/-- Processing a prefix of successful frames that fits under the frame cap:
the loop walks through it, accumulating exactly its attempt and time totals,
appending its poses to the trajectory and its blocks to the trace. -/
theorem runLoop_success_segment (opts : SLAMOptions) (seq_id : ℤ)
    (pre : List FrameOutcome) :
    ∀ (rest : List FrameOutcome) (st : LoopState),
    (∀ f ∈ pre, f.success = true) →
    (opts.max_frames < 0 ∨ ((st.frame_id : ℤ) + pre.length ≤ opts.max_frames)) →
    runLoop opts seq_id (pre ++ rest) st =
      runLoop opts seq_id rest
        { frame_id := st.frame_id + pre.length,
          attempts_total := st.attempts_total + sumAttempts pre,
          registration_elapsed_ms := st.registration_elapsed_ms + sumElapsed pre,
          trajectory := st.trajectory ++ pre.map FrameOutcome.pose,
          events := st.events ++ successTrace opts st.frame_id pre } := by
  induction pre with
  | nil =>
    intro rest st _ _
    simp [sumAttempts, sumElapsed, successTrace]
  | cons f pre ih =>
    intro rest st hsucc hcap
    have hf : f.success = true := hsucc f (by simp)
    have hguard : opts.max_frames < 0 ∨ (st.frame_id : ℤ) < opts.max_frames := by
      rcases hcap with h | h
      · exact Or.inl h
      · right
        simp only [List.length_cons] at h
        push_cast at h ⊢
        omega
    rw [List.cons_append, runLoop, if_pos hguard, if_pos hf]
    rw [ih rest _ (fun g hg => hsucc g (by simp [hg]))
      (by
        rcases hcap with h | h
        · exact Or.inl h
        · right
          simp only [List.length_cons] at h
          push_cast at h ⊢
          omega)]
    congr 1
    simp [sumAttempts, sumElapsed, successTrace, List.append_assoc]
    refine ⟨?_, ?_⟩
    · omega
    · exact ⟨by ring, by ring⟩

/-- All-success runs: the loop ends `completed`, the number of processed
frames is the iterator length clipped by the cap (`max_frames < 0` =
unbounded), and exactly that many `RegisterFrame` calls appear in the
trace. -/
theorem runLoop_success_count (opts : SLAMOptions) (seq_id : ℤ)
    (frames : List FrameOutcome) :
    ∀ st : LoopState, (∀ f ∈ frames, f.success = true) →
    ((runLoop opts seq_id frames st).1.frame_id =
      if opts.max_frames < 0 then st.frame_id + frames.length
      else max st.frame_id
        (min (st.frame_id + frames.length) opts.max_frames.toNat)) ∧
    (runLoop opts seq_id frames st).2 = LoopExit.completed ∧
    registerCount (runLoop opts seq_id frames st).1.events =
      registerCount st.events +
        ((runLoop opts seq_id frames st).1.frame_id - st.frame_id) := by
  induction frames with
  | nil =>
    intro st _
    refine ⟨?_, rfl, by simp [runLoop]⟩
    simp only [runLoop, List.length_nil, Nat.add_zero]
    split <;> omega
  | cons f frames ih =>
    intro st hsucc
    have hf : f.success = true := hsucc f (by simp)
    by_cases hguard : opts.max_frames < 0 ∨ (st.frame_id : ℤ) < opts.max_frames
    · rw [runLoop, if_pos hguard, if_pos hf]
      dsimp only
      obtain ⟨h1, h2, h3⟩ :=
        ih _ (fun g hg => hsucc g (List.mem_cons_of_mem f hg))
      refine ⟨?_, h2, ?_⟩
      · rw [h1]
        simp only [List.length_cons]
        by_cases hneg : opts.max_frames < 0
        · simp only [if_pos hneg]; omega
        · simp only [if_neg hneg]
          rcases hguard with h | hlt
          · exact absurd h hneg
          · omega
      · rw [h3, h1, registerCount_append, registerCount_append,
          registerCount_if_gateWait]
        have h4 : registerCount [Event.register st.frame_id] = 1 := rfl
        rw [h4]
        by_cases hneg : opts.max_frames < 0
        · simp only [if_pos hneg]; omega
        · simp only [if_neg hneg]
          rcases hguard with h | hlt
          · exact absurd h hneg
          · omega
    · rw [runLoop, if_neg hguard]
      push_neg at hguard
      refine ⟨?_, rfl, by simp⟩
      rw [if_neg (not_lt.mpr hguard.1)]
      simp only [List.length_cons]
      omega

/-- A run whose iterator holds `pre ++ fail :: post` with every frame of
`pre` successful, `fail` failing, and the failing frame still under the
frame cap: the loop processes `pre`, accumulates the failing frame's
attempts and time as well, reports the failure at frame index
`pre.length`, and ends by `exit(1)` (after joining the GUI thread when
visualization is on) or by `break` according to `suspend_on_failure`;
`post` is never reached. -/
theorem runLoop_first_failure (opts : SLAMOptions) (seq_id : ℤ)
    (pre : List FrameOutcome) (fail : FrameOutcome) (post : List FrameOutcome)
    (st : LoopState)
    (hpre : ∀ f ∈ pre, f.success = true) (hfail : fail.success = false)
    (hcap : opts.max_frames < 0 ∨
      ((st.frame_id : ℤ) + pre.length < opts.max_frames)) :
    runLoop opts seq_id (pre ++ fail :: post) st =
      (let stp : LoopState :=
        { frame_id := st.frame_id + pre.length,
          attempts_total :=
            st.attempts_total + sumAttempts pre + fail.number_of_attempts,
          registration_elapsed_ms :=
            st.registration_elapsed_ms + sumElapsed pre + fail.elapsed_ms,
          trajectory := st.trajectory ++ pre.map FrameOutcome.pose,
          events := st.events ++ successTrace opts st.frame_id pre ++
            [Event.register (st.frame_id + pre.length)] ++
            (if opts.with_viz3d then gateWait fail.pauses else []) ++
            [Event.reportError seq_id (st.frame_id + pre.length)
              fail.error_message] }
       if opts.suspend_on_failure then
         ({ stp with events := stp.events ++
             (if opts.with_viz3d then [Event.joinGui] else []) ++
             [Event.exitProcess 1] },
          LoopExit.aborted (st.frame_id + pre.length))
       else (stp, LoopExit.failedBreak (st.frame_id + pre.length))) := by
  rw [runLoop_success_segment opts seq_id pre (fail :: post) st hpre
    (by rcases hcap with h | h
        · exact Or.inl h
        · right; omega)]
  rw [runLoop]
  rw [if_pos (show opts.max_frames < 0 ∨
      ((st.frame_id + pre.length : ℕ) : ℤ) < opts.max_frames by
    rcases hcap with h | h
    · exact Or.inl h
    · right; push_cast; omega)]
  rw [if_neg (by simp [hfail])]

/-- Whatever the frame outcomes, the number of `RegisterFrame` calls is
bounded by the iterator length and, when the cap is non-negative, by the
cap's remaining budget. -/
theorem runLoop_registerCount_bound (opts : SLAMOptions) (seq_id : ℤ) :
    ∀ (frames : List FrameOutcome) (st : LoopState),
    registerCount (runLoop opts seq_id frames st).1.events ≤
      registerCount st.events + frames.length ∧
    (0 ≤ opts.max_frames →
      registerCount (runLoop opts seq_id frames st).1.events ≤
        registerCount st.events + (opts.max_frames.toNat - st.frame_id)) := by
  intro frames
  induction frames with
  | nil => intro st; constructor <;> simp [runLoop]
  | cons f frames ih =>
    intro st
    rw [runLoop]
    by_cases hguard : opts.max_frames < 0 ∨ (st.frame_id : ℤ) < opts.max_frames
    · rw [if_pos hguard]
      dsimp only
      have hre : registerCount
          (st.events ++ [Event.register st.frame_id] ++
            (if opts.with_viz3d then gateWait f.pauses else [])) =
          registerCount st.events + 1 := by
        rw [registerCount_append, registerCount_append,
          registerCount_if_gateWait]
        rfl
      by_cases hf : f.success = true
      · rw [if_pos hf]
        obtain ⟨b1, b2⟩ := ih
          { st with
            frame_id := st.frame_id + 1,
            attempts_total := st.attempts_total + f.number_of_attempts,
            registration_elapsed_ms :=
              st.registration_elapsed_ms + f.elapsed_ms,
            trajectory := st.trajectory ++ [f.pose],
            events := st.events ++ [Event.register st.frame_id] ++
              (if opts.with_viz3d then gateWait f.pauses else []) }
        dsimp only at b1 b2
        rw [hre] at b1 b2
        constructor
        · exact le_trans b1 (by simp [List.length_cons]; omega)
        · intro hmf
          have hlt : (st.frame_id : ℤ) < opts.max_frames := by
            rcases hguard with h | h
            · omega
            · exact h
          exact le_trans (b2 hmf) (by omega)
      · rw [if_neg hf]
        by_cases hs : opts.suspend_on_failure
        · rw [if_pos hs]
          dsimp only
          rw [registerCount_append, registerCount_append,
            registerCount_append, hre]
          have h1 : registerCount
              (if opts.with_viz3d then [Event.joinGui] else []) = 0 := by
            cases opts.with_viz3d <;> rfl
          have h2 : registerCount [Event.exitProcess 1] = 0 := rfl
          have h3 : registerCount
              [Event.reportError seq_id st.frame_id f.error_message] = 0 := rfl
          rw [h1, h2, h3]
          constructor
          · simp
          · intro hmf
            have hlt : (st.frame_id : ℤ) < opts.max_frames := by
              rcases hguard with h | h
              · omega
              · exact h
            omega
        · rw [if_neg hs]
          dsimp only
          rw [registerCount_append, hre]
          have h3 : registerCount
              [Event.reportError seq_id st.frame_id f.error_message] = 0 := rfl
          rw [h3]
          constructor
          · simp
          · intro hmf
            have hlt : (st.frame_id : ℤ) < opts.max_frames := by
              rcases hguard with h | h
              · omega
              · exact h
            omega
    · rw [if_neg hguard]
      constructor
      · simp
      · intro _; simp

/-! ## Helper lemmas about the per-sequence post-processing -/

/-- A sequence whose loop called `exit(1)`: the global totals were
accumulated (per frame), the loop's events are appended, and the driver is
told to stop; nothing else happens. -/
theorem runSequence_eq_aborted (opts : SLAMOptions)
    (evalFn : List Pose → List Pose → seq_errors)
    (g : GlobalState) (s : SequenceInput)
    (h1 : (seqFinal opts s).2.isAborted = true) :
    runSequence opts evalFn g s =
      ({ g with
         all_seq_registration_elapsed_ms :=
           g.all_seq_registration_elapsed_ms +
             (seqFinal opts s).1.registration_elapsed_ms,
         all_seq_num_frames :=
           g.all_seq_num_frames + (seqFinal opts s).1.frame_id,
         events := g.events ++ (seqFinal opts s).1.events }, true) := by
  unfold runSequence
  rw [if_pos h1]

/-- A sequence that ran to `break` or completion and has no ground truth:
totals accumulated, trajectory saved when enabled, no evaluation, no
metrics write. -/
theorem runSequence_eq_nogt (opts : SLAMOptions)
    (evalFn : List Pose → List Pose → seq_errors)
    (g : GlobalState) (s : SequenceInput)
    (h1 : (seqFinal opts s).2.isAborted = false)
    (h2 : s.has_ground_truth = false) :
    runSequence opts evalFn g s =
      ({ g with
         all_seq_registration_elapsed_ms :=
           g.all_seq_registration_elapsed_ms +
             (seqFinal opts s).1.registration_elapsed_ms,
         all_seq_num_frames :=
           g.all_seq_num_frames + (seqFinal opts s).1.frame_id,
         events := g.events ++ (seqFinal opts s).1.events ++
           (if opts.save_trajectory then
             [Event.savePoses s.name (seqFinal opts s).1.trajectory]
            else []) }, false) := by
  unfold runSequence
  rw [if_neg (by simp [h1])]
  by_cases hsave : opts.save_trajectory <;>
    simp [h2, hsave, List.append_assoc]

/-- A sequence that ran to `break` or completion and has ground truth:
totals accumulated, trajectory saved when enabled, the (possibly resized)
ground truth evaluated, the entry inserted into the map and the whole map
written to the metrics file. -/
theorem runSequence_eq_gt (opts : SLAMOptions)
    (evalFn : List Pose → List Pose → seq_errors)
    (g : GlobalState) (s : SequenceInput)
    (h1 : (seqFinal opts s).2.isAborted = false)
    (h2 : s.has_ground_truth = true) :
    runSequence opts evalFn g s =
      ({ g with
         sequence_name_to_errors :=
           mapInsert s.name (seqErrorOf opts evalFn s)
             g.sequence_name_to_errors,
         dataset_with_gt := true,
         nb_seq_with_gt := g.nb_seq_with_gt + 1,
         average_rpe_on_seq :=
           g.average_rpe_on_seq + (seqErrorOf opts evalFn s).mean_rpe,
         all_seq_registration_elapsed_ms :=
           g.all_seq_registration_elapsed_ms +
             (seqFinal opts s).1.registration_elapsed_ms,
         all_seq_num_frames :=
           g.all_seq_num_frames + (seqFinal opts s).1.frame_id,
         events := g.events ++ (seqFinal opts s).1.events ++
           (if opts.save_trajectory then
             [Event.savePoses s.name (seqFinal opts s).1.trajectory]
            else []) ++
           [Event.evalCall
              (groundTruthForEval s.ground_truth_poses
                (estimatedPoses opts s)).1
              (estimatedPoses opts s),
            Event.saveMetrics
              (mapInsert s.name (seqErrorOf opts evalFn s)
                g.sequence_name_to_errors)
              (groundTruthForEval s.ground_truth_poses
                (estimatedPoses opts s)).2] }, false) := by
  unfold runSequence
  rw [if_neg (by simp [h1])]
  by_cases hsave : opts.save_trajectory <;>
    simp [h2, hsave, List.append_assoc]

/-- In every branch of the per-sequence post-processing, the global
elapsed-time total and frame count grow by exactly the per-sequence
figures. -/
theorem runSequence_allseq (opts : SLAMOptions)
    (evalFn : List Pose → List Pose → seq_errors)
    (g : GlobalState) (s : SequenceInput) :
    (runSequence opts evalFn g s).1.all_seq_registration_elapsed_ms =
      g.all_seq_registration_elapsed_ms +
        (seqFinal opts s).1.registration_elapsed_ms ∧
    (runSequence opts evalFn g s).1.all_seq_num_frames =
      g.all_seq_num_frames + (seqFinal opts s).1.frame_id := by
  by_cases h1 : (seqFinal opts s).2.isAborted
  · rw [runSequence_eq_aborted opts evalFn g s h1]
    exact ⟨rfl, rfl⟩
  · by_cases h2 : s.has_ground_truth
    · rw [runSequence_eq_gt opts evalFn g s (by simpa using h1) h2]
      exact ⟨rfl, rfl⟩
    · rw [runSequence_eq_nogt opts evalFn g s (by simpa using h1)
        (by simpa using h2)]
      exact ⟨rfl, rfl⟩

/-! ## C2 — the frame-loop guard -/

/-- **C2 counterexample.**  The claim reads the unbounded sentinel as
exactly `-1`: with `max_frames = -2` its guard
(`hasNext && (max_frames == -1 || frame_id < max_frames)`) is already false
before the first frame, so no frame should be acquired or registered — yet
the code's guard is `max_frames < 0`, and on a one-frame sequence the loop
does register that frame. -/
theorem c2_loop_guard_counterexample :
    loopCondClaim (-2) true 0 = false ∧
    (seqFinal { max_frames := -2 } seqOneOk).1.frame_id = 1 ∧
    registerCount (seqFinal { max_frames := -2 } seqOneOk).1.events = 1 := by
  refine ⟨rfl, rfl, rfl⟩

/-- **C2 (amended).**  The loop guard treats any negative `max_frames`
(conventionally `-1`) as unbounded: on an all-success run the number of
processed frames — and of `RegisterFrame` calls — is the full iterator
length when `max_frames < 0` and `min length max_frames` otherwise, the
loop ends by guard exhaustion, and (for arbitrary outcomes) the number of
registrations never exceeds the iterator length nor a non-negative cap. -/
theorem c2_loop_guard_amended (opts : SLAMOptions) (s : SequenceInput)
    (hsucc : ∀ f ∈ s.frames, f.success = true) :
    ((seqFinal opts s).1.frame_id =
      if opts.max_frames < 0 then s.frames.length
      else min s.frames.length opts.max_frames.toNat) ∧
    registerCount (seqFinal opts s).1.events = (seqFinal opts s).1.frame_id ∧
    (seqFinal opts s).2 = LoopExit.completed ∧
    (∀ s2 : SequenceInput,
      registerCount (seqFinal opts s2).1.events ≤ s2.frames.length ∧
      (0 ≤ opts.max_frames →
        registerCount (seqFinal opts s2).1.events ≤ opts.max_frames.toNat)) := by
  obtain ⟨h1, h2, h3⟩ :=
    runLoop_success_count opts s.sequence_id s.frames {} hsucc
  refine ⟨?_, ?_, h2, ?_⟩
  · show (runLoop opts s.sequence_id s.frames {}).1.frame_id = _
    rw [h1]
    dsimp only
    by_cases hneg : opts.max_frames < 0
    · simp [hneg]
    · simp only [if_neg hneg]
      omega
  · show registerCount (runLoop opts s.sequence_id s.frames {}).1.events =
      (runLoop opts s.sequence_id s.frames {}).1.frame_id
    rw [h3]
    simp [registerCount]
  · intro s2
    obtain ⟨b1, b2⟩ :=
      runLoop_registerCount_bound opts s2.sequence_id s2.frames {}
    constructor
    · simpa [registerCount] using b1
    · intro hmf
      simpa [registerCount] using b2 hmf

/-- Witness for the amended C2 at a concrete all-success input. -/
theorem c2_loop_guard_amended_witness :
    (∀ f ∈ seqOneOk.frames, f.success = true) ∧
    (seqFinal {} seqOneOk).1.frame_id = 1 := by
  have h : ∀ f ∈ seqOneOk.frames, f.success = true := by decide
  refine ⟨h, ?_⟩
  have := (c2_loop_guard_amended {} seqOneOk h).1
  rw [this]
  decide

/-- The lexicographic comparison is irreflexive. -/
theorem strLt_irrefl (l : List Char) : strLt l l = false := by
  induction l with
  | nil => rfl
  | cons a l ih => simp [strLt, ih]

/-- `std::string` comparison is irreflexive. -/
theorem stringLt_irrefl (k : String) : stringLt k k = false :=
  strLt_irrefl k.data

/-- Looking up a key right after inserting it yields the inserted value
(`m[k] = v` overwrites). -/
theorem lookupMap_insert_self (k : String) (v : seq_errors)
    (m : List (String × seq_errors)) :
    lookupMap k (mapInsert k v m) = some v := by
  induction m with
  | nil => simp [mapInsert, lookupMap]
  | cons p m ih =>
    obtain ⟨k1, v1⟩ := p
    by_cases hlt : stringLt k k1
    · simp [mapInsert, hlt, lookupMap]
    · by_cases heq : k = k1
      · subst heq
        simp [mapInsert, stringLt_irrefl, lookupMap]
      · simp [mapInsert, hlt, heq, lookupMap, ih]

/-! ## C1 — failure reporting and failure policy -/

/-- **C1.**  When `RegisterFrame` fails (frame `pre.length` of sequence
`s`, all earlier frames successful and the failing frame under the cap):
the driver reports the sequence id, the frame index and the engine's error
message; with `suspend_on_failure` the loop exits via `exit(1)` preceded
(when visualization is on) by joining the GUI thread, and the driver stops
with exit code 1 without touching the remaining sequences; without it the
loop breaks early, the partial trajectory holds exactly the successful
frames' poses, it is saved (when saving is on) and evaluated as-is (when
ground truth exists), and the driver continues with the next sequences. -/
theorem c1_failure_policy (opts : SLAMOptions)
    (evalFn : List Pose → List Pose → seq_errors) (g : GlobalState)
    (s : SequenceInput) (rest : List SequenceInput)
    (pre : List FrameOutcome) (fail : FrameOutcome)
    (post : List FrameOutcome)
    (hframes : s.frames = pre ++ fail :: post)
    (hpre : ∀ f ∈ pre, f.success = true)
    (hfail : fail.success = false)
    (hcap : opts.max_frames < 0 ∨ ((pre.length : ℤ) < opts.max_frames)) :
    Event.reportError s.sequence_id pre.length fail.error_message ∈
      (seqFinal opts s).1.events ∧
    (opts.suspend_on_failure = true →
      (seqFinal opts s).2 = LoopExit.aborted pre.length ∧
      (∃ l, (seqFinal opts s).1.events =
        l ++ (if opts.with_viz3d then [Event.joinGui] else []) ++
          [Event.exitProcess 1]) ∧
      runAll opts evalFn (s :: rest) g =
        RunResult.exited 1 (runSequence opts evalFn g s).1) ∧
    (opts.suspend_on_failure = false →
      (seqFinal opts s).2 = LoopExit.failedBreak pre.length ∧
      (seqFinal opts s).1.trajectory = pre.map FrameOutcome.pose ∧
      runAll opts evalFn (s :: rest) g =
        runAll opts evalFn rest (runSequence opts evalFn g s).1 ∧
      (opts.save_trajectory = true →
        Event.savePoses s.name (pre.map FrameOutcome.pose) ∈
          (runSequence opts evalFn g s).1.events) ∧
      (s.has_ground_truth = true →
        Event.evalCall
            (groundTruthForEval s.ground_truth_poses
              (pre.map FrameOutcome.pose)).1
            (pre.map FrameOutcome.pose) ∈
          (runSequence opts evalFn g s).1.events ∧
        lookupMap s.name
            (runSequence opts evalFn g s).1.sequence_name_to_errors =
          some (seqErrorOf opts evalFn s))) := by
  have hseq : seqFinal opts s =
      runLoop opts s.sequence_id (pre ++ fail :: post) ({} : LoopState) := by
    rw [seqFinal, hframes]
  rw [runLoop_first_failure opts s.sequence_id pre fail post {} hpre hfail
    (by simpa using hcap)] at hseq
  have htraj : (seqFinal opts s).1.trajectory = pre.map FrameOutcome.pose := by
    rw [hseq]
    by_cases hs : opts.suspend_on_failure <;> simp [hs]
  refine ⟨?_, ?_, ?_⟩
  · rw [hseq]
    by_cases hs : opts.suspend_on_failure <;> simp [hs]
  · intro hs
    have hexit : (seqFinal opts s).2 = LoopExit.aborted pre.length := by
      rw [hseq]; simp [hs]
    have habort : (seqFinal opts s).2.isAborted = true := by
      rw [hexit]; rfl
    refine ⟨hexit, ?_, ?_⟩
    · refine ⟨({} : LoopState).events ++ successTrace opts 0 pre ++
        [Event.register (0 + pre.length)] ++
        (if opts.with_viz3d then gateWait fail.pauses else []) ++
        [Event.reportError s.sequence_id (0 + pre.length)
          fail.error_message], ?_⟩
      rw [hseq]
      simp [hs, List.append_assoc]
    · rw [runAll]
      rw [runSequence_eq_aborted opts evalFn g s habort]
      rfl
  · intro hs
    have hexit : (seqFinal opts s).2 = LoopExit.failedBreak pre.length := by
      rw [hseq]; simp [hs]
    have habort : (seqFinal opts s).2.isAborted = false := by
      rw [hexit]; rfl
    have hrs : (runSequence opts evalFn g s).2 = false := by
      unfold runSequence
      rw [if_neg (by simp [habort])]
      by_cases h2 : s.has_ground_truth <;> simp [h2]
    refine ⟨hexit, htraj, ?_, ?_, ?_⟩
    · rw [runAll]
      rw [if_neg (by simp [hrs])]
    · intro hsave
      by_cases h2 : s.has_ground_truth
      · rw [runSequence_eq_gt opts evalFn g s habort h2]
        simp [hsave, htraj]
      · rw [runSequence_eq_nogt opts evalFn g s habort (by simpa using h2)]
        simp [hsave, htraj]
    · intro h2
      rw [runSequence_eq_gt opts evalFn g s habort h2]
      constructor
      · simp [estimatedPoses, htraj]
      · simp only
        exact lookupMap_insert_self _ _ _

/-- Witness for C1 at a concrete input: sequence `seqPreFail` fails at
frame 1 with the engine message, the failure is reported, and (default
options: `suspend_on_failure = false`) the loop breaks. -/
theorem c1_failure_policy_witness :
    Event.reportError 0 1 "ICP failure" ∈ (seqFinal {} seqPreFail).1.events ∧
    (seqFinal {} seqPreFail).2 = LoopExit.failedBreak 1 := by
  have h := c1_failure_policy {} evalConst {} seqPreFail [] [okFrame]
    failFrame [] rfl (by decide) rfl (Or.inl (by decide))
  exact ⟨h.1, (h.2.2 rfl).1⟩

/-! ## Helper lemmas about the cross-sequence aggregation -/

theorem metricsSnapshots_append (a b : List Event) :
    metricsSnapshots (a ++ b) =
      metricsSnapshots a ++ metricsSnapshots b := by
  simp [metricsSnapshots, List.filterMap_append]

theorem metricsSnapshots_gateWait (n : ℕ) :
    metricsSnapshots (gateWait n) = [] := by
  induction n with
  | zero => rfl
  | succ n ih => simpa [gateWait, metricsSnapshots] using ih

/-- The frame loop itself never writes the metrics file. -/
theorem metricsSnapshots_runLoop (opts : SLAMOptions) (seq_id : ℤ) :
    ∀ (frames : List FrameOutcome) (st : LoopState),
    metricsSnapshots (runLoop opts seq_id frames st).1.events =
      metricsSnapshots st.events := by
  intro frames
  induction frames with
  | nil => intro st; rfl
  | cons f frames ih =>
    intro st
    rw [runLoop]
    by_cases hguard : opts.max_frames < 0 ∨ (st.frame_id : ℤ) < opts.max_frames
    · rw [if_pos hguard]
      dsimp only
      have hblock : metricsSnapshots
          (st.events ++ [Event.register st.frame_id] ++
            (if opts.with_viz3d then gateWait f.pauses else [])) =
          metricsSnapshots st.events := by
        rw [metricsSnapshots_append, metricsSnapshots_append]
        have h1 : metricsSnapshots [Event.register st.frame_id] = [] := rfl
        have h2 : metricsSnapshots
            (if opts.with_viz3d then gateWait f.pauses else []) = [] := by
          cases opts.with_viz3d
          · rfl
          · simpa using metricsSnapshots_gateWait f.pauses
        rw [h1, h2]
        simp
      by_cases hf : f.success = true
      · rw [if_pos hf]
        rw [ih]
        exact hblock
      · rw [if_neg hf]
        by_cases hs : opts.suspend_on_failure
        · rw [if_pos hs]
          dsimp only
          rw [metricsSnapshots_append, metricsSnapshots_append,
            metricsSnapshots_append, hblock]
          have h1 : metricsSnapshots
              (if opts.with_viz3d then [Event.joinGui] else []) = [] := by
            cases opts.with_viz3d <;> rfl
          rw [h1]
          simp [metricsSnapshots]
        · rw [if_neg hs]
          dsimp only
          rw [metricsSnapshots_append, hblock]
          simp [metricsSnapshots]
    · rw [if_neg hguard]

theorem gtMeanRpes_cons (opts : SLAMOptions)
    (evalFn : List Pose → List Pose → seq_errors)
    (s : SequenceInput) (rest : List SequenceInput) :
    gtMeanRpes opts evalFn (s :: rest) =
      (if s.has_ground_truth then
        [(seqErrorOf opts evalFn s).mean_rpe] else []) ++
      gtMeanRpes opts evalFn rest := by
  by_cases h : s.has_ground_truth <;>
    simp [gtMeanRpes, List.filter_cons, h]

/-- Everything a finished run accumulates across sequences: the final map,
the RPE accumulator and ground-truth sequence count, and the successive
metrics-file snapshots. -/
theorem runAll_finished_invariants (opts : SLAMOptions)
    (evalFn : List Pose → List Pose → seq_errors) :
    ∀ (seqs : List SequenceInput) (g gf : GlobalState),
    runAll opts evalFn seqs g = RunResult.finished gf →
    gf.sequence_name_to_errors =
      finalMapOf opts evalFn seqs g.sequence_name_to_errors ∧
    gf.average_rpe_on_seq =
      g.average_rpe_on_seq + (gtMeanRpes opts evalFn seqs).sum ∧
    gf.nb_seq_with_gt =
      g.nb_seq_with_gt + (gtMeanRpes opts evalFn seqs).length ∧
    metricsSnapshots gf.events =
      metricsSnapshots g.events ++
        mapStates opts evalFn seqs g.sequence_name_to_errors := by
  intro seqs
  induction seqs with
  | nil =>
    intro g gf h
    rw [runAll] at h
    cases h
    simp [finalMapOf, gtMeanRpes, mapStates]
  | cons s rest ih =>
    intro g gf h
    rw [runAll] at h
    by_cases hab : (seqFinal opts s).2.isAborted
    · rw [runSequence_eq_aborted opts evalFn g s hab] at h
      simp at h
    · have hsnaps0 : metricsSnapshots (seqFinal opts s).1.events = [] := by
        have := metricsSnapshots_runLoop opts s.sequence_id s.frames
          ({} : LoopState)
        simpa [seqFinal] using this
      have hsave : metricsSnapshots
          (if opts.save_trajectory then
            [Event.savePoses s.name (seqFinal opts s).1.trajectory]
           else []) = [] := by
        cases opts.save_trajectory <;> rfl
      by_cases hgt : s.has_ground_truth
      · rw [runSequence_eq_gt opts evalFn g s (by simpa using hab) hgt] at h
        simp only [if_neg (by simp : ¬(false = true))] at h
        obtain ⟨ih1, ih2, ih3, ih4⟩ := ih _ gf h
        refine ⟨?_, ?_, ?_, ?_⟩
        · rw [ih1]
          simp [finalMapOf, hgt]
        · rw [ih2]
          dsimp only
          rw [gtMeanRpes_cons]
          simp [hgt]
          ring
        · rw [ih3]
          dsimp only
          rw [gtMeanRpes_cons]
          simp [hgt]
          omega
        · rw [ih4]
          dsimp only
          rw [metricsSnapshots_append, metricsSnapshots_append,
            metricsSnapshots_append, hsnaps0, hsave]
          have htail : metricsSnapshots
              [Event.evalCall
                 (groundTruthForEval s.ground_truth_poses
                   (estimatedPoses opts s)).1 (estimatedPoses opts s),
               Event.saveMetrics
                 (mapInsert s.name (seqErrorOf opts evalFn s)
                   g.sequence_name_to_errors)
                 (groundTruthForEval s.ground_truth_poses
                   (estimatedPoses opts s)).2] =
              [mapInsert s.name (seqErrorOf opts evalFn s)
                g.sequence_name_to_errors] := rfl
          rw [htail]
          simp [mapStates, hgt]
      · rw [runSequence_eq_nogt opts evalFn g s (by simpa using hab)
          (by simpa using hgt)] at h
        simp only [if_neg (by simp : ¬(false = true))] at h
        obtain ⟨ih1, ih2, ih3, ih4⟩ := ih _ gf h
        refine ⟨?_, ?_, ?_, ?_⟩
        · rw [ih1]
          simp [finalMapOf, hgt]
        · rw [ih2]
          dsimp only
          rw [gtMeanRpes_cons]
          simp [hgt]
        · rw [ih3]
          dsimp only
          rw [gtMeanRpes_cons]
          simp [hgt]
        · rw [ih4]
          dsimp only
          rw [metricsSnapshots_append, metricsSnapshots_append,
            hsnaps0, hsave]
          simp [mapStates, hgt]

/-- The inner accumulation loop of lines 403–407, over one entry's
`tab_errors`. -/
theorem kittiFold_inner (l : List SegErr) :
    ∀ a : ℚ × ℚ × ℚ,
    l.foldl (fun a e => (a.1 + e.t_err, a.2.1 + e.r_err, a.2.2 + 1)) a =
      (a.1 + (l.map SegErr.t_err).sum, a.2.1 + (l.map SegErr.r_err).sum,
       a.2.2 + l.length) := by
  induction l with
  | nil => intro a; simp
  | cons e l ih =>
    intro a
    rw [List.foldl_cons, ih]
    refine Prod.ext ?_ (Prod.ext ?_ ?_) <;> simp <;> push_cast <;> ring

/-- The whole accumulation of lines 399–408 equals the flat per-segment
sums and the total segment count. -/
theorem kittiAccum_eq (m : List (String × seq_errors)) :
    kittiAccum m =
      (((allSegments m).map SegErr.t_err).sum,
       ((allSegments m).map SegErr.r_err).sum,
       ((allSegments m).length : ℚ)) := by
  have haux : ∀ a : ℚ × ℚ × ℚ,
      m.foldl
        (fun acc p =>
          p.2.tab_errors.foldl
            (fun a e => (a.1 + e.t_err, a.2.1 + e.r_err, a.2.2 + 1)) acc)
        a =
      (a.1 + ((allSegments m).map SegErr.t_err).sum,
       a.2.1 + ((allSegments m).map SegErr.r_err).sum,
       a.2.2 + ((allSegments m).length : ℚ)) := by
    induction m with
    | nil => intro a; simp [allSegments]
    | cons p m ih =>
      intro a
      rw [List.foldl_cons, kittiFold_inner, ih]
      have hseg : allSegments (p :: m) = p.2.tab_errors ++ allSegments m :=
        rfl
      refine Prod.ext ?_ (Prod.ext ?_ ?_) <;>
        simp [hseg] <;> push_cast <;> ring
  rw [kittiAccum, haux (0, 0, 0)]
  simp

/-- A key found after an insert is the inserted key or was already
present. -/
theorem lookupMap_mapInsert_isSome (k k1 : String) (v : seq_errors)
    (m : List (String × seq_errors)) :
    (lookupMap k (mapInsert k1 v m)).isSome = true →
    k = k1 ∨ (lookupMap k m).isSome = true := by
  induction m with
  | nil =>
    intro h
    rw [mapInsert, lookupMap] at h
    by_cases heq : k = k1
    · exact Or.inl heq
    · rw [if_neg heq, lookupMap] at h
      cases h
  | cons p m ih =>
    obtain ⟨k2, v2⟩ := p
    intro h
    rw [mapInsert] at h
    by_cases hlt : stringLt k1 k2
    · rw [if_pos hlt, lookupMap] at h
      by_cases heq : k = k1
      · exact Or.inl heq
      · rw [if_neg heq] at h
        exact Or.inr h
    · rw [if_neg hlt] at h
      by_cases heq1 : k1 = k2
      · rw [if_pos heq1, lookupMap] at h
        by_cases heq : k = k1
        · exact Or.inl heq
        · rw [if_neg heq] at h
          right
          rw [lookupMap, if_neg (heq1 ▸ heq)]
          exact h
      · rw [if_neg heq1, lookupMap] at h
        by_cases heq2 : k = k2
        · right
          rw [lookupMap, if_pos heq2]
          rw [if_pos heq2] at h
          simp
        · rw [if_neg heq2] at h
          rcases ih h with h1 | h1
          · exact Or.inl h1
          · right
            rw [lookupMap, if_neg heq2]
            exact h1

/-- Every key of the accumulated map is the name of a processed sequence
that has ground truth. -/
theorem finalMapOf_keys (opts : SLAMOptions)
    (evalFn : List Pose → List Pose → seq_errors) :
    ∀ (seqs : List SequenceInput) (m : List (String × seq_errors))
      (k : String),
    (lookupMap k (finalMapOf opts evalFn seqs m)).isSome = true →
    (lookupMap k m).isSome = true ∨
      ∃ s ∈ seqs, s.name = k ∧ s.has_ground_truth = true := by
  intro seqs
  induction seqs with
  | nil => intro m k h; exact Or.inl h
  | cons s rest ih =>
    intro m k h
    rw [finalMapOf] at h
    rcases ih _ k h with h1 | h1
    · by_cases hgt : s.has_ground_truth
      · rw [if_pos hgt] at h1
        rcases lookupMap_mapInsert_isSome k s.name _ m h1 with h2 | h2
        · exact Or.inr ⟨s, by simp, h2.symm, hgt⟩
        · exact Or.inl h2
      · rw [if_neg hgt] at h1
        exact Or.inl h1
    · obtain ⟨s1, hs1, hname, hgt1⟩ := h1
      exact Or.inr ⟨s1, by simp [hs1], hname, hgt1⟩

/-! ## C5 — the cross-sequence KITTI-style metric -/

/-- **C5.**  For any finished run, the printed KITTI translation metric
equals (sum of all per-segment translation errors across all sequences /
total segment count) × 100, the rotation metric analogously ×180/π
(radians→degrees, with the double constant `M_PI`), and every entry of the
map they are computed over belongs to a processed sequence that has ground
truth. -/
theorem c5_kitti_metric (opts : SLAMOptions)
    (evalFn : List Pose → List Pose → seq_errors)
    (seqs : List SequenceInput) (gf : GlobalState)
    (hrun : runSLAM opts evalFn seqs = RunResult.finished gf) :
    kittiTranslationMetric gf.sequence_name_to_errors =
      (((allSegments gf.sequence_name_to_errors).map SegErr.t_err).sum /
        ((allSegments gf.sequence_name_to_errors).length : ℚ)) * 100 ∧
    kittiRotationMetric gf.sequence_name_to_errors =
      (((allSegments gf.sequence_name_to_errors).map SegErr.r_err).sum /
        ((allSegments gf.sequence_name_to_errors).length : ℚ)) * 180 /
        M_PI ∧
    (∀ k, (lookupMap k gf.sequence_name_to_errors).isSome = true →
      ∃ s ∈ seqs, s.name = k ∧ s.has_ground_truth = true) := by
  have hrun2 : runAll opts evalFn seqs {} = RunResult.finished gf := hrun
  refine ⟨?_, ?_, ?_⟩
  · rw [kittiTranslationMetric, kittiAccum_eq]
  · rw [kittiRotationMetric, kittiAccum_eq]
  · intro k hk
    have h1 := (runAll_finished_invariants opts evalFn seqs {} gf hrun2).1
    rw [h1] at hk
    rcases finalMapOf_keys opts evalFn seqs _ k hk with h | h
    · rw [lookupMap] at h
      cases h
    · exact h

/-- Witness for C5: one ground-truth sequence with a single segment error
(t_err = 1/10) gives KITTI translation metric (1/10 ÷ 1) × 100 = 10. -/
theorem c5_kitti_metric_witness :
    runSLAM {} evalSeg [seqEmptyGt] =
      RunResult.finished (finalGlobal (runSLAM {} evalSeg [seqEmptyGt])) ∧
    kittiTranslationMetric
      (finalGlobal (runSLAM {} evalSeg [seqEmptyGt])).sequence_name_to_errors
      = 10 := by
  have hrun : runSLAM {} evalSeg [seqEmptyGt] =
      RunResult.finished (finalGlobal (runSLAM {} evalSeg [seqEmptyGt])) :=
    rfl
  refine ⟨hrun, ?_⟩
  have h := (c5_kitti_metric {} evalSeg [seqEmptyGt] _ hrun).1
  rw [h]
  have hmap : (finalGlobal
      (runSLAM {} evalSeg [seqEmptyGt])).sequence_name_to_errors =
      [("01", seqErrorOf {} evalSeg seqEmptyGt)] := rfl
  rw [hmap]
  norm_num [allSegments, seqErrorOf, evalSeg]

/-! ## C6 — cross-sequence average RPE -/

/-- **C6.**  For any finished run, the accumulated `average_rpe_on_seq` is
the plain sum of each ground-truth sequence's mean RPE, `nb_seq_with_gt`
counts exactly the ground-truth sequences, and the printed "Average RPE on
seq" is their quotient — the unweighted arithmetic mean of the per-sequence
means over exactly the sequences that have ground truth (no re-weighting by
segment count). -/
theorem c6_average_rpe (opts : SLAMOptions)
    (evalFn : List Pose → List Pose → seq_errors)
    (seqs : List SequenceInput) (gf : GlobalState)
    (hrun : runSLAM opts evalFn seqs = RunResult.finished gf) :
    gf.average_rpe_on_seq = (gtMeanRpes opts evalFn seqs).sum ∧
    gf.nb_seq_with_gt = (gtMeanRpes opts evalFn seqs).length ∧
    averageRpeOnSeqPrinted gf =
      (gtMeanRpes opts evalFn seqs).sum /
        ((gtMeanRpes opts evalFn seqs).length : ℚ) := by
  have hrun2 : runAll opts evalFn seqs {} = RunResult.finished gf := hrun
  have h := runAll_finished_invariants opts evalFn seqs {} gf hrun2
  have h1 : gf.average_rpe_on_seq = (gtMeanRpes opts evalFn seqs).sum := by
    have := h.2.1
    simpa using this
  have h2 : gf.nb_seq_with_gt = (gtMeanRpes opts evalFn seqs).length := by
    have := h.2.2.1
    simpa using this
  refine ⟨h1, h2, ?_⟩
  rw [averageRpeOnSeqPrinted, h1, h2]

/-- Witness for C6 — the claim's own scenario: one ground-truth sequence
with mean RPE 1/50 (= 0.02) and one sequence without ground truth; the
printed cross-sequence average RPE is 1/50. -/
theorem c6_average_rpe_witness :
    runSLAM {} evalConst [seqEmptyGt, seqOneOk] =
      RunResult.finished
        (finalGlobal (runSLAM {} evalConst [seqEmptyGt, seqOneOk])) ∧
    averageRpeOnSeqPrinted
      (finalGlobal (runSLAM {} evalConst [seqEmptyGt, seqOneOk])) =
      1 / 50 := by
  have hrun : runSLAM {} evalConst [seqEmptyGt, seqOneOk] =
      RunResult.finished
        (finalGlobal (runSLAM {} evalConst [seqEmptyGt, seqOneOk])) := rfl
  refine ⟨hrun, ?_⟩
  have h := (c6_average_rpe {} evalConst [seqEmptyGt, seqOneOk] _ hrun).2.2
  rw [h]
  norm_num [gtMeanRpes, seqErrorOf, evalConst, seqEmptyGt, seqOneOk]

/-! ## C8 — when the metrics file is written -/

/-- One metrics write per ground-truth sequence. -/
theorem mapStates_length (opts : SLAMOptions)
    (evalFn : List Pose → List Pose → seq_errors) :
    ∀ (seqs : List SequenceInput) (m : List (String × seq_errors)),
    (mapStates opts evalFn seqs m).length =
      (seqs.filter fun s => s.has_ground_truth).length := by
  intro seqs
  induction seqs with
  | nil => intro m; rfl
  | cons s rest ih =>
    intro m
    rw [mapStates]
    by_cases hgt : s.has_ground_truth
    · simp [hgt, List.filter_cons, ih]
    · simp [hgt, List.filter_cons, ih]

/-- **C8 counterexample.**  `SaveMetrics` is called only inside the
`has_ground_truth` branch (line 391): a run over one completed sequence
without ground truth writes the metrics file zero times, refuting
"persisted after every sequence completes". -/
theorem c8_counterexample :
    runSLAM {} evalConst [seqOneOk] =
      RunResult.finished (finalGlobal (runSLAM {} evalConst [seqOneOk])) ∧
    metricsSnapshots
      (finalGlobal (runSLAM {} evalConst [seqOneOk])).events = [] ∧
    ([seqOneOk] : List SequenceInput).length = 1 :=
  ⟨rfl, rfl, rfl⟩

/-- **C8 (amended).**  The metrics sidecar is rewritten after every
**ground-truth** sequence completes (not only after the final one), each
time with the full accumulated map; sequences without ground truth trigger
no write but also contribute no entry, so a process killed between
sequences still leaves on disk the metrics of every previously completed
ground-truth sequence. -/
theorem c8_metrics_persistence (opts : SLAMOptions)
    (evalFn : List Pose → List Pose → seq_errors)
    (seqs : List SequenceInput) (gf : GlobalState)
    (hrun : runSLAM opts evalFn seqs = RunResult.finished gf) :
    metricsSnapshots gf.events = mapStates opts evalFn seqs [] ∧
    (metricsSnapshots gf.events).length =
      (seqs.filter fun s => s.has_ground_truth).length := by
  have hrun2 : runAll opts evalFn seqs {} = RunResult.finished gf := hrun
  have h := (runAll_finished_invariants opts evalFn seqs {} gf hrun2).2.2.2
  have h1 : metricsSnapshots gf.events = mapStates opts evalFn seqs [] := by
    simpa [metricsSnapshots] using h
  exact ⟨h1, by rw [h1, mapStates_length]⟩

/-- Witness for the amended C8: a ground-truth sequence followed by one
without ground truth yields exactly one metrics write, holding the full
map. -/
theorem c8_metrics_persistence_witness :
    runSLAM {} evalConst [seqEmptyGt, seqOneOk] =
      RunResult.finished
        (finalGlobal (runSLAM {} evalConst [seqEmptyGt, seqOneOk])) ∧
    (metricsSnapshots
      (finalGlobal (runSLAM {} evalConst [seqEmptyGt, seqOneOk])).events
      ).length = 1 := by
  have hrun : runSLAM {} evalConst [seqEmptyGt, seqOneOk] =
      RunResult.finished
        (finalGlobal (runSLAM {} evalConst [seqEmptyGt, seqOneOk])) := rfl
  refine ⟨hrun, ?_⟩
  have h := (c8_metrics_persistence {} evalConst [seqEmptyGt, seqOneOk] _
    hrun).2
  rw [h]
  decide

/-! ## C9 — order and overwrite semantics of the accumulator map -/

/-- The lexicographic comparison is transitive. -/
theorem strLt_trans (a : List Char) :
    ∀ b c, strLt a b = true → strLt b c = true → strLt a c = true := by
  induction a with
  | nil =>
    intro b c hab hbc
    cases b with
    | nil => simp [strLt] at hab
    | cons bb bs =>
      cases c with
      | nil => simp [strLt] at hbc
      | cons cc cs => rfl
  | cons aa as ih =>
    intro b c hab hbc
    cases b with
    | nil => simp [strLt] at hab
    | cons bb bs =>
      cases c with
      | nil => simp [strLt] at hbc
      | cons cc cs =>
        rw [strLt] at hab hbc ⊢
        by_cases h1 : aa.toNat < bb.toNat
        · by_cases h2 : bb.toNat < cc.toNat
          · rw [if_pos (by omega : aa.toNat < cc.toNat)]
          · rw [if_neg h2] at hbc
            by_cases h3 : cc.toNat < bb.toNat
            · rw [if_pos h3] at hbc
              cases hbc
            · rw [if_pos (by omega : aa.toNat < cc.toNat)]
        · rw [if_neg h1] at hab
          by_cases h1b : bb.toNat < aa.toNat
          · rw [if_pos h1b] at hab
            cases hab
          · rw [if_neg h1b] at hab
            by_cases h2 : bb.toNat < cc.toNat
            · rw [if_pos (by omega : aa.toNat < cc.toNat)]
            · rw [if_neg h2] at hbc
              by_cases h3 : cc.toNat < bb.toNat
              · rw [if_pos h3] at hbc
                cases hbc
              · rw [if_neg h3] at hbc
                rw [if_neg (by omega : ¬aa.toNat < cc.toNat),
                  if_neg (by omega : ¬cc.toNat < aa.toNat)]
                exact ih bs cs hab hbc

/-- Lexicographic trichotomy on character lists. -/
theorem strLt_trichotomy (a : List Char) :
    ∀ b, strLt a b = true ∨ a = b ∨ strLt b a = true := by
  induction a with
  | nil =>
    intro b
    cases b with
    | nil => exact Or.inr (Or.inl rfl)
    | cons bb bs => exact Or.inl rfl
  | cons aa as ih =>
    intro b
    cases b with
    | nil => exact Or.inr (Or.inr rfl)
    | cons bb bs =>
      rcases Nat.lt_trichotomy aa.toNat bb.toNat with h | h | h
      · left
        rw [strLt, if_pos h]
      · have heq : aa = bb := by
          apply Char.eq_of_val_eq
          exact UInt32.ext h
        rcases ih bs with h1 | h1 | h1
        · left
          rw [strLt, if_neg (by omega), if_neg (by omega)]
          exact h1
        · exact Or.inr (Or.inl (by rw [heq, h1]))
        · right; right
          rw [strLt, if_neg (by omega), if_neg (by omega)]
          exact h1
      · right; right
        rw [strLt, if_pos h]

/-- `std::string` trichotomy. -/
theorem stringLt_trichotomy (a b : String) :
    stringLt a b = true ∨ a = b ∨ stringLt b a = true := by
  rcases strLt_trichotomy a.data b.data with h | h | h
  · exact Or.inl h
  · refine Or.inr (Or.inl ?_)
    cases a; cases b
    exact congrArg String.mk h
  · exact Or.inr (Or.inr h)

/-- `std::string` transitivity. -/
theorem stringLt_trans (a b c : String) (h1 : stringLt a b = true)
    (h2 : stringLt b c = true) : stringLt a c = true :=
  strLt_trans a.data b.data c.data h1 h2

/-- Members after an insert: the new entry or an old one. -/
theorem mem_mapInsert (k : String) (v : seq_errors)
    (m : List (String × seq_errors)) (q : String × seq_errors) :
    q ∈ mapInsert k v m → q = (k, v) ∨ q ∈ m := by
  induction m with
  | nil =>
    intro h
    rw [mapInsert] at h
    simpa using h
  | cons p m ih =>
    obtain ⟨k1, v1⟩ := p
    intro h
    rw [mapInsert] at h
    by_cases hlt : stringLt k k1
    · rw [if_pos hlt] at h
      rcases List.mem_cons.mp h with h1 | h1
      · exact Or.inl h1
      · exact Or.inr h1
    · rw [if_neg hlt] at h
      by_cases heq : k = k1
      · rw [if_pos heq] at h
        rcases List.mem_cons.mp h with h1 | h1
        · exact Or.inl h1
        · exact Or.inr (List.mem_cons_of_mem _ h1)
      · rw [if_neg heq] at h
        rcases List.mem_cons.mp h with h1 | h1
        · exact Or.inr (h1 ▸ List.mem_cons_self _ _)
        · rcases ih h1 with h2 | h2
          · exact Or.inl h2
          · exact Or.inr (List.mem_cons_of_mem _ h2)

/-- Insert preserves strictly-increasing key order. -/
theorem mapInsert_pairwise (k : String) (v : seq_errors)
    (m : List (String × seq_errors))
    (h : List.Pairwise (fun p q => stringLt p.1 q.1 = true) m) :
    List.Pairwise (fun p q => stringLt p.1 q.1 = true) (mapInsert k v m) := by
  induction m with
  | nil => simp [mapInsert]
  | cons p m ih =>
    obtain ⟨k1, v1⟩ := p
    rw [List.pairwise_cons] at h
    obtain ⟨hall, hm⟩ := h
    rw [mapInsert]
    by_cases hlt : stringLt k k1
    · rw [if_pos hlt]
      refine List.Pairwise.cons ?_ (List.Pairwise.cons hall hm)
      intro q hq
      rcases List.mem_cons.mp hq with h1 | h1
      · rw [h1]
        exact hlt
      · exact stringLt_trans k k1 q.1 hlt (hall q h1)
    · rw [if_neg hlt]
      by_cases heq : k = k1
      · rw [if_pos heq]
        refine List.Pairwise.cons ?_ hm
        intro q hq
        rw [heq]
        exact hall q hq
      · rw [if_neg heq]
        refine List.Pairwise.cons ?_ (ih hm)
        intro q hq
        rcases mem_mapInsert k v m q hq with h1 | h1
        · rw [h1]
          rcases stringLt_trichotomy k k1 with h2 | h2 | h2
          · exact absurd h2 hlt
          · exact absurd h2 heq
          · exact h2
        · exact hall q h1

/-- The accumulated map of any run keeps its keys strictly increasing. -/
theorem finalMapOf_pairwise (opts : SLAMOptions)
    (evalFn : List Pose → List Pose → seq_errors) :
    ∀ (seqs : List SequenceInput) (m : List (String × seq_errors)),
    List.Pairwise (fun p q => stringLt p.1 q.1 = true) m →
    List.Pairwise (fun p q => stringLt p.1 q.1 = true)
      (finalMapOf opts evalFn seqs m) := by
  intro seqs
  induction seqs with
  | nil => intro m h; exact h
  | cons s rest ih =>
    intro m h
    rw [finalMapOf]
    by_cases hgt : s.has_ground_truth
    · rw [if_pos hgt]
      exact ih _ (mapInsert_pairwise _ _ _ h)
    · rw [if_neg hgt]
      exact ih _ h

/-- Re-inserting the same key overwrites: the earlier value is gone. -/
theorem mapInsert_overwrite (k : String) (v1 v2 : seq_errors)
    (m : List (String × seq_errors)) :
    mapInsert k v2 (mapInsert k v1 m) = mapInsert k v2 m := by
  have hirr : ¬ (stringLt k k = true) := by
    rw [stringLt_irrefl]
    simp
  induction m with
  | nil => simp [mapInsert, hirr]
  | cons p m ih =>
    obtain ⟨k1, u⟩ := p
    by_cases hlt : stringLt k k1
    · simp [mapInsert, hlt, hirr]
    · by_cases heq : k = k1
      · subst heq
        simp [mapInsert, hirr]
      · simp [mapInsert, hlt, heq, hirr, ih]

/-- **C9 counterexample.**  Processing the ground-truth sequences named
"10" then "01" leaves the map iterating as ["01", "10"] — key order, not
the processing order ["10", "01"]: the accumulator is a `std::map` ordered
by name, not by insertion. -/
theorem c9_map_order_counterexample :
    (finalGlobal (runSLAM {} evalConst [seqNameB, seqEmptyGt])
      ).sequence_name_to_errors.map Prod.fst = ["01", "10"] ∧
    [seqNameB.name, seqEmptyGt.name] = ["10", "01"] ∧
    (["01", "10"] : List String) ≠ ["10", "01"] := by
  refine ⟨by decide, rfl, by decide⟩

/-- **C9 (amended).**  The accumulator is a `std::map` keyed by sequence
name: its iteration (and persistence) order is strictly increasing
lexicographic name order — which coincides with processing order only when
sequences are processed in name order — and re-evaluating the same
sequence name overwrites the existing entry (last write wins). -/
theorem c9_map_sorted (opts : SLAMOptions)
    (evalFn : List Pose → List Pose → seq_errors)
    (seqs : List SequenceInput) (gf : GlobalState)
    (hrun : runSLAM opts evalFn seqs = RunResult.finished gf) :
    List.Pairwise (fun p q => stringLt p.1 q.1 = true)
      gf.sequence_name_to_errors ∧
    (∀ (k : String) (v : seq_errors) (m : List (String × seq_errors)),
      lookupMap k (mapInsert k v m) = some v) ∧
    (∀ (k : String) (v1 v2 : seq_errors) (m : List (String × seq_errors)),
      mapInsert k v2 (mapInsert k v1 m) = mapInsert k v2 m) := by
  have hrun2 : runAll opts evalFn seqs {} = RunResult.finished gf := hrun
  have h := (runAll_finished_invariants opts evalFn seqs {} gf hrun2).1
  refine ⟨?_, lookupMap_insert_self, mapInsert_overwrite⟩
  rw [h]
  exact finalMapOf_pairwise opts evalFn seqs [] List.Pairwise.nil

/-- Witness for the amended C9: the out-of-name-order run yields a map
whose keys are sorted. -/
theorem c9_map_sorted_witness :
    runSLAM {} evalConst [seqNameB, seqEmptyGt] =
      RunResult.finished
        (finalGlobal (runSLAM {} evalConst [seqNameB, seqEmptyGt])) ∧
    List.Pairwise (fun p q => stringLt p.1 q.1 = true)
      (finalGlobal (runSLAM {} evalConst [seqNameB, seqEmptyGt])
        ).sequence_name_to_errors := by
  have hrun : runSLAM {} evalConst [seqNameB, seqEmptyGt] =
      RunResult.finished
        (finalGlobal (runSLAM {} evalConst [seqNameB, seqEmptyGt])) := rfl
  exact ⟨hrun,
    (c9_map_sorted {} evalConst [seqNameB, seqEmptyGt] _ hrun).1⟩

/-! ## C7 — the pause gate -/

theorem pauseStateAfter_append (a b : List Event) :
    ∀ s, pauseStateAfter (a ++ b) s = pauseStateAfter b (pauseStateAfter a s) := by
  induction a with
  | nil => intro s; rfl
  | cons e a ih =>
    intro s
    cases e <;> simp [pauseStateAfter, ih]

theorem regMidPauseAux_append (a b : List Event) :
    ∀ s, regMidPauseAux (a ++ b) s =
      (regMidPauseAux a s || regMidPauseAux b (pauseStateAfter a s)) := by
  induction a with
  | nil => intro s; rfl
  | cons e a ih =>
    intro s
    cases e <;> simp [regMidPauseAux, pauseStateAfter, ih, Bool.or_assoc]

/-- The gate wait always ends on a `true` reading: no pause is left open. -/
theorem gateWait_pauseState (n : ℕ) :
    ∀ s, pauseStateAfter (gateWait n) s = false := by
  induction n with
  | zero => intro s; rfl
  | succ n ih => intro s; simp [gateWait, pauseStateAfter, ih]

/-- The gate wait contains no `RegisterFrame` call. -/
theorem gateWait_regMidPause (n : ℕ) :
    ∀ s, regMidPauseAux (gateWait n) s = false := by
  induction n with
  | zero => intro s; rfl
  | succ n ih => intro s; simp [gateWait, regMidPauseAux, ih]

/-- Every sleep inside a gate wait lasts exactly the 0.01 s poll
interval. -/
theorem gateWait_sleep_duration (n : ℕ) :
    ∀ d : ℚ, Event.sleep d ∈ gateWait n → d = pollIntervalSeconds := by
  induction n with
  | zero =>
    intro d hd
    simp [gateWait] at hd
  | succ n ih =>
    intro d hd
    rw [gateWait] at hd
    rcases List.mem_cons.mp hd with h | h
    · cases h
    · rcases List.mem_cons.mp h with h1 | h1
      · simp at h1
        exact h1
      · exact ih d h1

theorem gateWait_if_pauseState (b : Bool) (n : ℕ) (s : Bool) :
    pauseStateAfter (if b then gateWait n else []) s =
      (if b then false else s) := by
  cases b
  · rfl
  · simpa using gateWait_pauseState n s

theorem gateWait_if_regMidPause (b : Bool) (n : ℕ) (s : Bool) :
    regMidPauseAux (if b then gateWait n else []) s = false := by
  cases b
  · rfl
  · simpa using gateWait_regMidPause n s

/-- Through the whole frame loop: if no registration has happened
mid-pause so far and no pause is left open, this stays true — in
particular, after a `false` gate reading, the next `RegisterFrame` call
only happens once the gate has read `true` again. -/
theorem runLoop_regMidPause (opts : SLAMOptions) (seq_id : ℤ) :
    ∀ (frames : List FrameOutcome) (st : LoopState),
    regMidPauseAux st.events false = false →
    pauseStateAfter st.events false = false →
    regMidPauseAux (runLoop opts seq_id frames st).1.events false = false ∧
    pauseStateAfter (runLoop opts seq_id frames st).1.events false =
      false := by
  intro frames
  induction frames with
  | nil => intro st h1 h2; exact ⟨h1, h2⟩
  | cons f frames ih =>
    intro st h1 h2
    rw [runLoop]
    by_cases hguard : opts.max_frames < 0 ∨ (st.frame_id : ℤ) < opts.max_frames
    · rw [if_pos hguard]
      dsimp only
      have hjr : ∀ s, regMidPauseAux
          (if opts.with_viz3d then [Event.joinGui] else []) s = false := by
        intro s; cases opts.with_viz3d <;> rfl
      have hjp : ∀ s, pauseStateAfter
          (if opts.with_viz3d then [Event.joinGui] else []) s = s := by
        intro s; cases opts.with_viz3d <;> rfl
      have e1 : regMidPauseAux
          (st.events ++ [Event.register st.frame_id] ++
            (if opts.with_viz3d then gateWait f.pauses else [])) false =
          false := by
        simp [regMidPauseAux_append, pauseStateAfter_append, h1, h2,
          gateWait_if_regMidPause, gateWait_if_pauseState,
          regMidPauseAux, pauseStateAfter]
      have e2 : pauseStateAfter
          (st.events ++ [Event.register st.frame_id] ++
            (if opts.with_viz3d then gateWait f.pauses else [])) false =
          false := by
        simp [pauseStateAfter_append, h2, gateWait_if_pauseState,
          pauseStateAfter]
      by_cases hf : f.success = true
      · rw [if_pos hf]
        exact ih _ e1 e2
      · rw [if_neg hf]
        by_cases hs : opts.suspend_on_failure
        · rw [if_pos hs]
          dsimp only
          refine ⟨?_, ?_⟩ <;>
            simp [regMidPauseAux_append, pauseStateAfter_append, h1, h2,
              gateWait_if_regMidPause, gateWait_if_pauseState, hjr, hjp,
              regMidPauseAux, pauseStateAfter]
        · rw [if_neg hs]
          refine ⟨?_, ?_⟩ <;>
            simp [regMidPauseAux_append, pauseStateAfter_append, h1, h2,
              gateWait_if_regMidPause, gateWait_if_pauseState,
              regMidPauseAux, pauseStateAfter]
    · rw [if_neg hguard]
      exact ⟨h1, h2⟩

/-- Through the whole frame loop, every sleep event lasts exactly the
0.01 s poll interval. -/
theorem runLoop_sleep_duration (opts : SLAMOptions) (seq_id : ℤ) :
    ∀ (frames : List FrameOutcome) (st : LoopState),
    (∀ d : ℚ, Event.sleep d ∈ st.events → d = pollIntervalSeconds) →
    ∀ d : ℚ, Event.sleep d ∈ (runLoop opts seq_id frames st).1.events →
      d = pollIntervalSeconds := by
  intro frames
  induction frames with
  | nil => intro st h; exact h
  | cons f frames ih =>
    intro st h
    rw [runLoop]
    by_cases hguard : opts.max_frames < 0 ∨ (st.frame_id : ℤ) < opts.max_frames
    · rw [if_pos hguard]
      dsimp only
      have hblock : ∀ d : ℚ,
          Event.sleep d ∈ st.events ++ [Event.register st.frame_id] ++
            (if opts.with_viz3d then gateWait f.pauses else []) →
          d = pollIntervalSeconds := by
        intro d hd
        rcases List.mem_append.mp hd with hd1 | hd1
        · rcases List.mem_append.mp hd1 with hd2 | hd2
          · exact h d hd2
          · simp at hd2
        · by_cases hv : opts.with_viz3d
          · rw [if_pos hv] at hd1
            exact gateWait_sleep_duration f.pauses d hd1
          · rw [if_neg hv] at hd1
            simp at hd1
      by_cases hf : f.success = true
      · rw [if_pos hf]
        exact ih _ hblock
      · rw [if_neg hf]
        have hrep : ∀ d : ℚ,
            Event.sleep d ∈ (st.events ++ [Event.register st.frame_id] ++
              (if opts.with_viz3d then gateWait f.pauses else [])) ++
              [Event.reportError seq_id st.frame_id f.error_message] →
            d = pollIntervalSeconds := by
          intro d hd
          rcases List.mem_append.mp hd with hd1 | hd1
          · exact hblock d hd1
          · simp at hd1
        by_cases hs : opts.suspend_on_failure
        · rw [if_pos hs]
          dsimp only
          intro d hd
          rcases List.mem_append.mp hd with hd1 | hd1
          · rcases List.mem_append.mp hd1 with hd2 | hd2
            · exact hrep d hd2
            · by_cases hv : opts.with_viz3d
              · rw [if_pos hv] at hd2
                simp at hd2
              · rw [if_neg hv] at hd2
                simp at hd2
          · simp at hd1
        · rw [if_neg hs]
          exact hrep
    · rw [if_neg hguard]
      exact h

/-- With visualization off there is no gate poll and no poll sleep in the
trace: the loop behaves as if the gate were permanently true. -/
theorem runLoop_no_gate_events (opts : SLAMOptions) (seq_id : ℤ)
    (hv : opts.with_viz3d = false) :
    ∀ (frames : List FrameOutcome) (st : LoopState),
    (∀ q ∈ st.events, Event.isGate q = false) →
    ∀ q ∈ (runLoop opts seq_id frames st).1.events,
      Event.isGate q = false := by
  intro frames
  induction frames with
  | nil => intro st h; exact h
  | cons f frames ih =>
    intro st h
    rw [runLoop]
    by_cases hguard : opts.max_frames < 0 ∨ (st.frame_id : ℤ) < opts.max_frames
    · rw [if_pos hguard]
      dsimp only
      rw [hv]
      have hblock : ∀ q ∈ st.events ++ [Event.register st.frame_id] ++
          (if false then gateWait f.pauses else []),
          Event.isGate q = false := by
        intro q hq
        rcases List.mem_append.mp hq with h1 | h1
        · rcases List.mem_append.mp h1 with h2 | h2
          · exact h q h2
          · simp at h2
            rw [h2]
            rfl
        · simp at h1
      by_cases hf : f.success = true
      · rw [if_pos hf]
        exact ih _ hblock
      · rw [if_neg hf]
        have hrep : ∀ q ∈ (st.events ++ [Event.register st.frame_id] ++
            (if false then gateWait f.pauses else [])) ++
            [Event.reportError seq_id st.frame_id f.error_message],
            Event.isGate q = false := by
          intro q hq
          rcases List.mem_append.mp hq with h1 | h1
          · exact hblock q h1
          · simp at h1
            rw [h1]
            rfl
        by_cases hs : opts.suspend_on_failure
        · rw [if_pos hs]
          dsimp only
          intro q hq
          rcases List.mem_append.mp hq with h1 | h1
          · rcases List.mem_append.mp h1 with h2 | h2
            · exact hrep q h2
            · simp at h2
          · simp at h1
            rw [h1]
            rfl
        · rw [if_neg hs]
          exact hrep
    · rw [if_neg hguard]
      exact h

/-- The gate (and the visualization flag) never influences which frames
get registered, the accumulated statistics, the trajectory, or how the
loop exits: running with any `with_viz3d` flag and any pause counts gives
the same non-trace state. -/
theorem runLoop_core_independent (opts : SLAMOptions) (b : Bool)
    (seq_id1 seq_id2 : ℤ) :
    ∀ (frames1 frames2 : List FrameOutcome) (st1 st2 : LoopState),
    frames1.map FrameOutcome.core = frames2.map FrameOutcome.core →
    st1.core = st2.core →
    (runLoop opts seq_id1 frames1 st1).1.core =
      (runLoop { opts with with_viz3d := b } seq_id2 frames2 st2).1.core ∧
    (runLoop opts seq_id1 frames1 st1).2 =
      (runLoop { opts with with_viz3d := b } seq_id2 frames2 st2).2 := by
  intro frames1
  induction frames1 with
  | nil =>
    intro frames2 st1 st2 hmap hst
    cases frames2 with
    | nil => exact ⟨hst, rfl⟩
    | cons f2 fs2 => simp at hmap
  | cons f1 fs1 ih =>
    intro frames2 st1 st2 hmap hst
    cases frames2 with
    | nil => simp at hmap
    | cons f2 fs2 =>
      simp only [List.map_cons, List.cons.injEq] at hmap
      obtain ⟨hf, hfs⟩ := hmap
      have hsucc : f1.success = f2.success := congrArg (fun t => t.1) hf
      have hatt : f1.number_of_attempts = f2.number_of_attempts :=
        congrArg (fun t => t.2.2.1) hf
      have hel : f1.elapsed_ms = f2.elapsed_ms :=
        congrArg (fun t => t.2.2.2.1) hf
      have hpose : f1.pose = f2.pose := congrArg (fun t => t.2.2.2.2) hf
      have hfid : st1.frame_id = st2.frame_id := congrArg (fun t => t.1) hst
      have hat : st1.attempts_total = st2.attempts_total :=
        congrArg (fun t => t.2.1) hst
      have het : st1.registration_elapsed_ms =
          st2.registration_elapsed_ms := congrArg (fun t => t.2.2.1) hst
      have htr : st1.trajectory = st2.trajectory :=
        congrArg (fun t => t.2.2.2) hst
      rw [runLoop, runLoop]
      by_cases hguard :
          opts.max_frames < 0 ∨ (st1.frame_id : ℤ) < opts.max_frames
      · have hguard2 : ({ opts with with_viz3d := b }).max_frames < 0 ∨
            (st2.frame_id : ℤ) < ({ opts with with_viz3d := b }).max_frames := by
          rw [← hfid]
          exact hguard
        rw [if_pos hguard, if_pos hguard2]
        dsimp only
        by_cases hsf : f1.success = true
        · rw [if_pos hsf,
            if_pos (show f2.success = true by rw [← hsucc]; exact hsf)]
          apply ih fs2 _ _ hfs
          simp only [LoopState.core, hfid, hat, het, htr, hatt, hel, hpose]
        · rw [if_neg hsf,
            if_neg (show ¬ (f2.success = true) by rw [← hsucc]; exact hsf)]
          by_cases hss : opts.suspend_on_failure
          · simp only [if_pos hss]
            constructor
            · simp only [LoopState.core, hfid, hat, het, htr, hatt, hel]
            · simp only [hfid]
          · simp only [if_neg hss]
            constructor
            · simp only [LoopState.core, hfid, hat, het, htr, hatt, hel]
            · simp only [hfid]
      · have hguard2 : ¬ (({ opts with with_viz3d := b }).max_frames < 0 ∨
            (st2.frame_id : ℤ) < ({ opts with with_viz3d := b }).max_frames) := by
          rw [← hfid]
          exact hguard
        rw [if_neg hguard, if_neg hguard2]
        exact ⟨hst, rfl⟩

/-- **C7.**  While the pause gate reads `false` the loop busy-polls at the
fixed 0.01 s interval after the current frame and before the next: no
`RegisterFrame` call ever occurs between a `false` gate reading and the
next `true` one; every poll sleep lasts exactly `pollIntervalSeconds`;
with the control surface absent (`with_viz3d = false`) the trace has no
gate polls or sleeps at all, and the gate/visualization flag and pause
counts have no influence on which frames are registered, the statistics,
the trajectory, or the loop exit — the loop behaves as under a permanently
true gate. -/
theorem c7_pause_gate (opts : SLAMOptions) (s : SequenceInput) :
    regMidPause (seqFinal opts s).1.events = false ∧
    (∀ d : ℚ, Event.sleep d ∈ (seqFinal opts s).1.events →
      d = pollIntervalSeconds) ∧
    (opts.with_viz3d = false →
      ∀ q ∈ (seqFinal opts s).1.events, Event.isGate q = false) ∧
    (∀ (s2 : SequenceInput) (b : Bool),
      s2.frames.map FrameOutcome.core = s.frames.map FrameOutcome.core →
      (seqFinal { opts with with_viz3d := b } s2).1.core =
        (seqFinal opts s).1.core ∧
      (seqFinal { opts with with_viz3d := b } s2).2 =
        (seqFinal opts s).2) := by
  refine ⟨?_, ?_, ?_, ?_⟩
  · exact (runLoop_regMidPause opts s.sequence_id s.frames {} rfl rfl).1
  · exact runLoop_sleep_duration opts s.sequence_id s.frames {}
      (by intro d hd; simp at hd)
  · intro hv
    exact runLoop_no_gate_events opts s.sequence_id hv s.frames {}
      (by intro q hq; simp at hq)
  · intro s2 b hmap
    have h := runLoop_core_independent opts b s.sequence_id s2.sequence_id
      s.frames s2.frames {} {} hmap.symm rfl
    exact ⟨h.1.symm, h.2.symm⟩

/-- Witness for C7: a frame that observes two `false` gate readings still
yields a trace with no mid-pause registration, and switching the control
surface off leaves the loop's outcome unchanged. -/
theorem c7_pause_gate_witness :
    regMidPause (seqFinal {} seqPause).1.events = false ∧
    (seqFinal { with_viz3d := false } seqPause).1.core =
      (seqFinal {} seqPause).1.core := by
  have h := c7_pause_gate {} seqPause
  exact ⟨h.1, (h.2.2.2 seqPause false rfl).1⟩

/-! ## C4 — ground-truth resize on length mismatch -/

/-- `std::vector::resize(n)` leaves exactly `n` elements. -/
theorem resizePoses_length (v : List Pose) (n : ℕ) :
    (resizePoses v n).length = n := by
  rw [resizePoses]
  split
  · simpa
  · simp
    omega

/-- **C4.**  For a ground-truth sequence whose pose count differs from the
estimated count: the ground truth handed to `ct_icp::eval` is the resize to
exactly the estimated length (for `M < N`, its first `M` poses),
`valid_trajectory` is `false`, no error is raised (the sequence finishes
with exit flag `false`), and the evaluation result is still computed,
recorded in the map and persisted with the invalid mark. -/
theorem c4_gt_resize (opts : SLAMOptions)
    (evalFn : List Pose → List Pose → seq_errors)
    (g : GlobalState) (s : SequenceInput)
    (hgt : s.has_ground_truth = true)
    (hna : (seqFinal opts s).2.isAborted = false)
    (hmis : s.ground_truth_poses.length ≠ (estimatedPoses opts s).length) :
    (groundTruthForEval s.ground_truth_poses (estimatedPoses opts s)).1 =
      resizePoses s.ground_truth_poses (estimatedPoses opts s).length ∧
    ((groundTruthForEval s.ground_truth_poses
        (estimatedPoses opts s)).1).length = (estimatedPoses opts s).length ∧
    ((estimatedPoses opts s).length < s.ground_truth_poses.length →
      (groundTruthForEval s.ground_truth_poses (estimatedPoses opts s)).1 =
        s.ground_truth_poses.take (estimatedPoses opts s).length) ∧
    (groundTruthForEval s.ground_truth_poses (estimatedPoses opts s)).2 =
      false ∧
    Event.evalCall
        (groundTruthForEval s.ground_truth_poses (estimatedPoses opts s)).1
        (estimatedPoses opts s) ∈
      (runSequence opts evalFn g s).1.events ∧
    Event.saveMetrics
        (mapInsert s.name (seqErrorOf opts evalFn s)
          g.sequence_name_to_errors) false ∈
      (runSequence opts evalFn g s).1.events ∧
    lookupMap s.name
        ((runSequence opts evalFn g s).1).sequence_name_to_errors =
      some (seqErrorOf opts evalFn s) ∧
    (runSequence opts evalFn g s).2 = false := by
  have hvalid : (groundTruthForEval s.ground_truth_poses
      (estimatedPoses opts s)).2 = false := by
    rw [groundTruthForEval]
    simpa using hmis
  have harg : (groundTruthForEval s.ground_truth_poses
      (estimatedPoses opts s)).1 =
      resizePoses s.ground_truth_poses (estimatedPoses opts s).length := by
    rw [groundTruthForEval]
    simpa using fun h => absurd h hmis
  refine ⟨harg, ?_, ?_, hvalid, ?_, ?_, ?_, ?_⟩
  · rw [harg, resizePoses_length]
  · intro hlt
    rw [harg, resizePoses, if_pos (le_of_lt hlt)]
  · rw [runSequence_eq_gt opts evalFn g s hna hgt]
    simp
  · rw [runSequence_eq_gt opts evalFn g s hna hgt]
    simp [hvalid]
  · rw [runSequence_eq_gt opts evalFn g s hna hgt]
    exact lookupMap_insert_self _ _ _
  · rw [runSequence_eq_gt opts evalFn g s hna hgt]

/-- Witness for C4 on `seqMismatch` (3 ground-truth poses, 1 estimated):
evaluation receives exactly the first ground-truth pose and the entry is
flagged invalid. -/
theorem c4_gt_resize_witness :
    (groundTruthForEval seqMismatch.ground_truth_poses
        (estimatedPoses {} seqMismatch)).1 = [1] ∧
    (groundTruthForEval seqMismatch.ground_truth_poses
        (estimatedPoses {} seqMismatch)).2 = false := by
  have h := c4_gt_resize {} evalConst {} seqMismatch rfl rfl (by decide)
  refine ⟨?_, h.2.2.2.1⟩
  have ht := h.2.2.1 (by decide)
  rw [ht]
  decide

/-! ## C3 — the average computations and zero frames -/

/-- **C3 counterexample.**  On a zero-frame sequence the loop processes no
frame, yet line 327 still executes `avg_number_of_attempts /= frame_id`
with `frame_id == 0` (and line 368 `registration_elapsed_ms / frame_id`
likewise): the divisor is zero, the claimed guard does not exist, and the
persisted figures are the non-finite IEEE results (modelled `none`). -/
theorem c3_divzero_counterexample :
    (seqFinal {} seqEmptyGt).1.frame_id = 0 ∧
    avgNumberOfAttempts {} seqEmptyGt = none ∧
    averageElapsedMs {} seqEmptyGt = none ∧
    (seqErrorOf {} evalConst seqEmptyGt).mean_num_attempts = none ∧
    (seqErrorOf {} evalConst seqEmptyGt).average_elapsed_ms = none :=
  ⟨rfl, rfl, rfl, rfl, rfl⟩

/-- **C3 (amended).**  The average-attempts and average-elapsed figures
are single divisions of the loop's accumulated totals by its final frame
count, performed after the loop has ended; the division is **unguarded**:
with zero frames it is a division by zero whose IEEE result is non-finite
(NaN/Inf, modelled `none`) and the program does not crash — the figure,
including the non-finite case, is what gets stored in the `seq_errors`
entry persisted for a ground-truth sequence; with at least one frame the
figures equal total/count. -/
theorem c3_division_after_loop (opts : SLAMOptions)
    (evalFn : List Pose → List Pose → seq_errors)
    (g : GlobalState) (s : SequenceInput) :
    avgNumberOfAttempts opts s =
      fpDiv (seqFinal opts s).1.attempts_total
        (seqFinal opts s).1.frame_id ∧
    averageElapsedMs opts s =
      fpDiv (seqFinal opts s).1.registration_elapsed_ms
        (seqFinal opts s).1.frame_id ∧
    ((seqFinal opts s).1.frame_id = 0 →
      avgNumberOfAttempts opts s = none ∧
      averageElapsedMs opts s = none) ∧
    ((seqFinal opts s).1.frame_id ≠ 0 →
      avgNumberOfAttempts opts s =
        some ((seqFinal opts s).1.attempts_total /
          (seqFinal opts s).1.frame_id) ∧
      averageElapsedMs opts s =
        some ((seqFinal opts s).1.registration_elapsed_ms /
          (seqFinal opts s).1.frame_id)) ∧
    (s.has_ground_truth = true → (seqFinal opts s).2.isAborted = false →
      lookupMap s.name
          (runSequence opts evalFn g s).1.sequence_name_to_errors =
        some (seqErrorOf opts evalFn s) ∧
      (seqErrorOf opts evalFn s).mean_num_attempts =
        avgNumberOfAttempts opts s ∧
      (seqErrorOf opts evalFn s).average_elapsed_ms =
        averageElapsedMs opts s) := by
  refine ⟨rfl, rfl, ?_, ?_, ?_⟩
  · intro h0
    rw [avgNumberOfAttempts, averageElapsedMs, h0]
    exact ⟨rfl, rfl⟩
  · intro h0
    rw [avgNumberOfAttempts, averageElapsedMs]
    rw [fpDiv, fpDiv, if_neg h0, if_neg h0]
    exact ⟨rfl, rfl⟩
  · intro hgt hna
    rw [runSequence_eq_gt opts evalFn g s hna hgt]
    exact ⟨lookupMap_insert_self _ _ _, rfl, rfl⟩

/-- Witness for the amended C3: the zero-frame ground-truth sequence
really hits the zero-divisor case, and the persisted entry carries the
non-finite figures. -/
theorem c3_division_after_loop_witness :
    avgNumberOfAttempts {} seqEmptyGt = none ∧
    lookupMap "01"
        ((runSequence {} evalConst {} seqEmptyGt).1).sequence_name_to_errors =
      some (seqErrorOf {} evalConst seqEmptyGt) := by
  have h := c3_division_after_loop {} evalConst {} seqEmptyGt
  exact ⟨(h.2.2.1 rfl).1, (h.2.2.2.2 rfl rfl).1⟩

/-! ## C10 — failure-inclusive totals over success-only divisor -/

/-- **C10.**  When a sequence's loop ends at a failing frame, the failing
frame's attempt count and registration time have already been accumulated
into the per-sequence totals (and, via the caller, the global ones), while
`frame_id` counts only the successfully registered frames; the reported
`mean_num_attempts` and `average_elapsed_ms` therefore divide
failure-inclusive totals by the number of successful frames. -/
theorem c10_failure_totals (opts : SLAMOptions)
    (evalFn : List Pose → List Pose → seq_errors) (g : GlobalState)
    (s : SequenceInput) (pre : List FrameOutcome) (fail : FrameOutcome)
    (post : List FrameOutcome)
    (hframes : s.frames = pre ++ fail :: post)
    (hpre : ∀ f ∈ pre, f.success = true)
    (hfail : fail.success = false)
    (hcap : opts.max_frames < 0 ∨ ((pre.length : ℤ) < opts.max_frames)) :
    (seqFinal opts s).1.attempts_total =
      sumAttempts pre + fail.number_of_attempts ∧
    (seqFinal opts s).1.registration_elapsed_ms =
      sumElapsed pre + fail.elapsed_ms ∧
    (seqFinal opts s).1.frame_id = pre.length ∧
    avgNumberOfAttempts opts s =
      fpDiv (sumAttempts pre + fail.number_of_attempts) pre.length ∧
    averageElapsedMs opts s =
      fpDiv (sumElapsed pre + fail.elapsed_ms) pre.length ∧
    (runSequence opts evalFn g s).1.all_seq_registration_elapsed_ms =
      g.all_seq_registration_elapsed_ms +
        (sumElapsed pre + fail.elapsed_ms) ∧
    (runSequence opts evalFn g s).1.all_seq_num_frames =
      g.all_seq_num_frames + pre.length := by
  have hseq : seqFinal opts s =
      runLoop opts s.sequence_id (pre ++ fail :: post) ({} : LoopState) := by
    rw [seqFinal, hframes]
  rw [runLoop_first_failure opts s.sequence_id pre fail post {} hpre hfail
    (by simpa using hcap)] at hseq
  have hstate :
      (seqFinal opts s).1.attempts_total =
        sumAttempts pre + fail.number_of_attempts ∧
      (seqFinal opts s).1.registration_elapsed_ms =
        sumElapsed pre + fail.elapsed_ms ∧
      (seqFinal opts s).1.frame_id = pre.length := by
    rw [hseq]
    by_cases hs : opts.suspend_on_failure <;>
      simp [hs]
  refine ⟨hstate.1, hstate.2.1, hstate.2.2, ?_, ?_, ?_, ?_⟩
  · rw [avgNumberOfAttempts, hstate.1, hstate.2.2]
  · rw [averageElapsedMs, hstate.2.1, hstate.2.2]
  · have := runSequence_allseq opts evalFn g s
    rw [this.1, hstate.2.1]
  · have := runSequence_allseq opts evalFn g s
    rw [this.2, hstate.2.2]

/-- Witness for C10: two successful frames would give attempt total 2;
with the third frame failing (5 attempts) the reported average is
(1+5)/1 = 6 over the single successful frame. -/
theorem c10_failure_totals_witness :
    seqPreFail.frames = [okFrame] ++ failFrame :: [] ∧
    avgNumberOfAttempts {} seqPreFail = fpDiv (sumAttempts [okFrame] +
      failFrame.number_of_attempts) 1 := by
  constructor
  · rfl
  · have h := c10_failure_totals {} evalConst {} seqPreFail [okFrame]
      failFrame [] rfl (by decide) rfl (Or.inl (by decide))
    simpa using h.2.2.2.1

end CtIcpSlam
